import Mathlib

/-!
Verification of the life-restart-core simulation engine (Rust) against its
natural-language specification, via a shallow embedding in Lean 4.

Modelling conventions:
* Rust `i32` is modelled as unbounded `Int`; none of the verified properties
  concern 32-bit overflow behaviour, and `/` on `i32` (truncation toward zero)
  is rendered as `Int.div`.
* Rust `f64` weights and float literals are modelled as exact rationals `ℚ`;
  the verified properties only use sign tests and comparisons against small
  literals, where the two agree.
* `HashMap` catalogues are modelled as association lists with first-match
  lookup; iteration over `values()` is iteration over the list.
* The thread-local random source is modelled by oracle streams: a stream of
  uniform draws in `[0,1)` (`Nat → ℚ`) for weighted selection and a stream of
  `Fin 5` picks for the `RDM` effect.  Consuming a value shifts the stream.
* The process-wide parse cache is modelled as transparent: by its stated
  invariant `cache[s]` is observationally equal to `parse(s)`, so
  `check_condition` simply parses.
-/

set_option maxHeartbeats 1000000

namespace LifeRestart

/-- Shallow embedding of `PropertyState` (src/src/property/state.rs). -/
structure PropertyState where
  age : Int := 0
  chr : Int := 0
  int : Int := 0
  str_ : Int := 0
  mny : Int := 0
  spr : Int := 0
  lif : Int := 0
  tlt : List Int := []
  evt : List Int := []
  lage : Int := 0
  lchr : Int := 0
  lint : Int := 0
  lstr : Int := 0
  lmny : Int := 0
  lspr : Int := 0
  hage : Int := 0
  hchr : Int := 0
  hint : Int := 0
  hstr : Int := 0
  hmny : Int := 0
  hspr : Int := 0
  deriving Repr, DecidableEq

/-- `PropertyState::new`: seeds the scalars, sets `age = -1`, and initialises
all minimum/maximum trackers to the current values (`init_min_max`). -/
def PropertyState.new (chr int str_ mny spr lif : Int) : PropertyState :=
  { age := -1, chr := chr, int := int, str_ := str_, mny := mny, spr := spr,
    lif := lif, tlt := [], evt := [],
    lage := -1, lchr := chr, lint := int, lstr := str_, lmny := mny, lspr := spr,
    hage := -1, hchr := chr, hint := int, hstr := str_, hmny := mny, hspr := spr }

/-- The five candidate targets of the `RDM` effect (`RDM_PROPERTIES`). -/
def RDM_PROPERTIES : List String := ["CHR", "INT", "STR", "MNY", "SPR"]

/-- Pick one of the five `RDM` target property names. -/
def rdmProperty (r : Fin 5) : String :=
  RDM_PROPERTIES.get ⟨r.val, by simpa [RDM_PROPERTIES] using r.isLt⟩

/-- One non-random step of `PropertyState::change`: scalar arms add the delta
then refresh the min/max trackers (`LIF` tracks no extrema), `TLT`/`EVT`
append iff absent, and the final arm is the source's `_ => ()` no-op.  The
`RDM` arm of the source recurses with a randomly chosen scalar name; that
recursion is performed by `PropertyState.change` below, so the name `RDM`
itself never reaches this function from `change`. -/
def PropertyState.applyDelta (s : PropertyState) (prop : String) (delta : Int) :
    PropertyState :=
  match prop with
  | "AGE" =>
    { s with age := s.age + delta, lage := min s.lage (s.age + delta),
             hage := max s.hage (s.age + delta) }
  | "CHR" =>
    { s with chr := s.chr + delta, lchr := min s.lchr (s.chr + delta),
             hchr := max s.hchr (s.chr + delta) }
  | "INT" =>
    { s with int := s.int + delta, lint := min s.lint (s.int + delta),
             hint := max s.hint (s.int + delta) }
  | "STR" =>
    { s with str_ := s.str_ + delta, lstr := min s.lstr (s.str_ + delta),
             hstr := max s.hstr (s.str_ + delta) }
  | "MNY" =>
    { s with mny := s.mny + delta, lmny := min s.lmny (s.mny + delta),
             hmny := max s.hmny (s.mny + delta) }
  | "SPR" =>
    { s with spr := s.spr + delta, lspr := min s.lspr (s.spr + delta),
             hspr := max s.hspr (s.spr + delta) }
  | "LIF" => { s with lif := s.lif + delta }
  | "TLT" => if delta ∈ s.tlt then s else { s with tlt := s.tlt ++ [delta] }
  | "EVT" => if delta ∈ s.evt then s else { s with evt := s.evt ++ [delta] }
  | _ => s

/-- `PropertyState::change`.  The `RDM` arm redirects to a uniformly chosen
one of the five scalar properties; the choice is supplied by the oracle
argument `pick`. -/
def PropertyState.change (s : PropertyState) (pick : Fin 5) (prop : String)
    (delta : Int) : PropertyState :=
  if prop = "RDM" then s.applyDelta (rdmProperty pick) delta
  else s.applyDelta prop delta

/-- `PropertyState::is_end`: the game ends when `lif < 1`. -/
def PropertyState.isEnd (s : PropertyState) : Bool := s.lif < 1

/-- `PropertyState::calculate_summary_score`, mirroring the source's local
bindings; `Int.div` is `i32` division (truncation toward zero). -/
def PropertyState.calculate_summary_score (s : PropertyState) : Int :=
  let hchr := max s.hchr s.chr
  let hint := max s.hint s.int
  let hstr := max s.hstr s.str_
  let hmny := max s.hmny s.mny
  let hspr := max s.hspr s.spr
  let hage := max s.hage s.age
  (hchr + hint + hstr + hmny + hspr) * 2 + Int.tdiv hage 2

/-- Extrema invariant: each tracked scalar lies between its recorded minimum
and maximum (`lif` is not tracked). -/
def PropertyState.extremaInv (s : PropertyState) : Prop :=
  s.lage ≤ s.age ∧ s.age ≤ s.hage ∧
  s.lchr ≤ s.chr ∧ s.chr ≤ s.hchr ∧
  s.lint ≤ s.int ∧ s.int ≤ s.hint ∧
  s.lstr ≤ s.str_ ∧ s.str_ ≤ s.hstr ∧
  s.lmny ≤ s.mny ∧ s.mny ≤ s.hmny ∧
  s.lspr ≤ s.spr ∧ s.spr ≤ s.hspr

/-- Both list properties are duplicate-free. -/
def PropertyState.listsNodup (s : PropertyState) : Prop :=
  s.tlt.Nodup ∧ s.evt.Nodup

/-- Apply a finite sequence of `change` calls; each element supplies the
`RDM` oracle pick, the property name and the delta. -/
def applyChanges (s : PropertyState) (cs : List (Fin 5 × String × Int)) :
    PropertyState :=
  cs.foldl (fun st c => st.change c.1 c.2.1 c.2.2) s

theorem applyDelta_extremaInv (s : PropertyState) (prop : String) (delta : Int)
    (h : s.extremaInv) : (s.applyDelta prop delta).extremaInv := by
  obtain ⟨h1, h2, h3, h4, h5, h6, h7, h8, h9, h10, h11, h12⟩ := h
  unfold PropertyState.applyDelta PropertyState.extremaInv
  split <;> (try split) <;>
    (refine ⟨?_, ?_, ?_, ?_, ?_, ?_, ?_, ?_, ?_, ?_, ?_, ?_⟩ <;> (try simp) <;> omega)

theorem applyDelta_listsNodup (s : PropertyState) (prop : String) (delta : Int)
    (h : s.listsNodup) : (s.applyDelta prop delta).listsNodup := by
  obtain ⟨h1, h2⟩ := h
  unfold PropertyState.applyDelta PropertyState.listsNodup
  split <;> try exact ⟨h1, h2⟩
  · split
    · exact ⟨h1, h2⟩
    · rename_i hmem
      refine ⟨?_, h2⟩
      simp only [List.nodup_append, List.nodup_singleton]
      refine ⟨h1, trivial, ?_⟩
      intro a ha hb
      rw [List.mem_singleton] at hb
      exact hmem (hb ▸ ha)
  · split
    · exact ⟨h1, h2⟩
    · rename_i hmem
      refine ⟨h1, ?_⟩
      simp only [List.nodup_append, List.nodup_singleton]
      refine ⟨h2, trivial, ?_⟩
      intro a ha hb
      rw [List.mem_singleton] at hb
      exact hmem (hb ▸ ha)

theorem change_extremaInv (s : PropertyState) (pick : Fin 5) (prop : String)
    (delta : Int) (h : s.extremaInv) :
    (s.change pick prop delta).extremaInv := by
  unfold PropertyState.change
  split <;> exact applyDelta_extremaInv _ _ _ h

theorem change_listsNodup (s : PropertyState) (pick : Fin 5) (prop : String)
    (delta : Int) (h : s.listsNodup) :
    (s.change pick prop delta).listsNodup := by
  unfold PropertyState.change
  split <;> exact applyDelta_listsNodup _ _ _ h

theorem applyChanges_inv (cs : List (Fin 5 × String × Int)) (s : PropertyState)
    (h1 : s.extremaInv) (h2 : s.listsNodup) :
    (applyChanges s cs).extremaInv ∧ (applyChanges s cs).listsNodup := by
  induction cs generalizing s with
  | nil => exact ⟨h1, h2⟩
  | cons c cs ih =>
    exact ih _ (change_extremaInv _ _ _ _ h1) (change_listsNodup _ _ _ _ h2)

theorem new_extremaInv (chr int str_ mny spr lif : Int) :
    (PropertyState.new chr int str_ mny spr lif).extremaInv := by
  simp [PropertyState.new, PropertyState.extremaInv]

/-- C3: after `PropertyState::new` and any finite sequence of `change`
calls, every tracked scalar `X ∈ {age, chr, int, str_, mny, spr}` satisfies
`lX ≤ X ≤ hX` (`lif` has no extrema), and the `tlt` and `evt` lists contain
no duplicates. -/
theorem c3_change_invariants (chr int str_ mny spr lif : Int)
    (cs : List (Fin 5 × String × Int)) :
    (applyChanges (PropertyState.new chr int str_ mny spr lif) cs).extremaInv ∧
    (applyChanges (PropertyState.new chr int str_ mny spr lif) cs).listsNodup :=
  applyChanges_inv cs _ (new_extremaInv chr int str_ mny spr lif)
    (by simp [PropertyState.new, PropertyState.listsNodup])

/-- Error type (src/src/error.rs); only the `InvalidCondition` variant is
constructed by the code modelled here. -/
inductive LifeRestartError where
  | invalidCondition (msg : String)
  deriving Repr, DecidableEq

/-- Comparison operators of the condition DSL (src/src/condition/ast.rs). -/
inductive Operator where
  | greater
  | less
  | greaterEqual
  | lessEqual
  | equal
  | notEqual
  | includesAny
  | excludesAll
  deriving Repr, DecidableEq

/-- Condition literal values.  Rust `f64` float literals are modelled as
exact rationals. -/
inductive ConditionValue where
  | integer (n : Int)
  | float (q : ℚ)
  | array (l : List Int)
  | string (s : String)
  deriving Repr, DecidableEq

/-- Single condition `PROP OP VALUE`. -/
structure SingleCondition where
  property : String
  operator : Operator
  value : ConditionValue
  deriving Repr, DecidableEq

/-- Condition AST (src/src/condition/ast.rs). -/
inductive AstNode where
  | single (c : SingleCondition)
  | and (l r : AstNode)
  | or (l r : AstNode)
  deriving Repr, DecidableEq

/-- Tokens of the condition tokeniser (src/src/condition/parser.rs). -/
inductive Token where
  | cond (s : String)
  | and
  | or
  | lparen
  | rparen
  deriving Repr, DecidableEq

/-- Character-level model of `str::trim` (kernel-reducible, unlike
`String.trim`'s byte-position implementation). -/
def strTrim (s : String) : String :=
  (((s.toList.dropWhile Char.isWhitespace).reverse.dropWhile
    Char.isWhitespace).reverse).asString

/-- Character-level model of `str::is_empty`. -/
def strIsEmpty (s : String) : Bool := s.toList.isEmpty

/-- Split a character list at commas, mirroring Rust `str::split(',')`
(the empty string yields one empty field). -/
def splitOnComma : List Char → List (List Char)
  | [] => [[]]
  | c :: rest =>
    if c = ',' then [] :: splitOnComma rest
    else
      match splitOnComma rest with
      | g :: gs => (c :: g) :: gs
      | [] => [[c]]

/-- Flush the accumulating atom into the token list (the repeated
`if !current.is_empty() { tokens.push(...) }` idiom of `tokenize`). -/
def pushCur (current : String) (acc : List Token) : List Token :=
  if strIsEmpty current then acc else acc ++ [.cond current]

/-- Main loop of `tokenize`: walks the characters keeping the current atom,
the running paren depth and the tokens so far. -/
def tokenizeGo : List Char → String → Int → List Token → List Token × Int
  | [], current, depth, acc => (pushCur current acc, depth)
  | c :: rest, current, depth, acc =>
    if c = ' ' then tokenizeGo rest "" depth (pushCur current acc)
    else if c = '(' then
      tokenizeGo rest "" (depth + 1) (pushCur current acc ++ [.lparen])
    else if c = ')' then
      tokenizeGo rest "" (depth - 1) (pushCur current acc ++ [.rparen])
    else if c = '&' then tokenizeGo rest "" depth (pushCur current acc ++ [.and])
    else if c = '|' then tokenizeGo rest "" depth (pushCur current acc ++ [.or])
    else tokenizeGo rest (current.push c) depth acc

/-- `tokenize`: produces the token list, rejecting unbalanced parentheses. -/
def tokenize (condition : String) : Except LifeRestartError (List Token) :=
  let r := tokenizeGo condition.toList "" 0 []
  if r.2 ≠ 0 then .error (.invalidCondition "Unbalanced parentheses")
  else .ok r.1

/-- Faithful model of Rust `str::parse::<i32>`: optional sign, decimal
digits, rejecting the empty string and values outside the `i32` range. -/
def parseIntRust (v : String) : Option Int :=
  let p := match v.toList with
    | '+' :: rest => ((1 : Int), rest)
    | '-' :: rest => ((-1 : Int), rest)
    | cs => ((1 : Int), cs)
  if p.2.isEmpty ∨ ¬ p.2.all Char.isDigit then none
  else
    let n : Int :=
      p.1 * p.2.foldl (fun acc c => acc * 10 + ((c.toNat : Int) - ('0'.toNat : Int))) 0
    if -2147483648 ≤ n ∧ n ≤ 2147483647 then some n else none

/-- Numeric value of a block of decimal digits. -/
def digitsVal (cs : List Char) : ℚ :=
  cs.foldl (fun acc c => acc * 10 + ((c.toNat : ℚ) - ('0'.toNat : ℚ))) 0

/-- Model of Rust `str::parse::<f64>` restricted to plain decimal literals
`[+-]? digits* ('.' digits*)?` with at least one digit, returned as an exact
rational.  Exponent, infinity and NaN forms are not exercised by any verified
property and are not modelled. -/
def parseFloatSimple (v : String) : Option ℚ :=
  let p := match v.toList with
    | '+' :: rest => ((1 : ℚ), rest)
    | '-' :: rest => ((-1 : ℚ), rest)
    | cs => ((1 : ℚ), cs)
  let intPart := p.2.takeWhile Char.isDigit
  let afterInt := p.2.drop intPart.length
  match afterInt with
  | [] => if intPart.isEmpty then none else some (p.1 * digitsVal intPart)
  | '.' :: fracPart =>
    if ¬ fracPart.all Char.isDigit then none
    else if intPart.isEmpty ∧ fracPart.isEmpty then none
    else some (p.1 * (digitsVal intPart + digitsVal fracPart / (10 : ℚ) ^ fracPart.length))
  | _ => none

/-- `parse_value`: array, then integer, then float, else a bare string. -/
def parseValue (valueStr : String) : Except LifeRestartError ConditionValue :=
  let v := strTrim valueStr
  if v.toList.head? = some '[' && v.toList.getLast? = some ']' then
    let inner := (v.toList.drop 1).dropLast
    match (splitOnComma inner).mapM
        (fun part => parseIntRust (strTrim part.asString)) with
    | some arr => .ok (.array arr)
    | none => .error (.invalidCondition ("Invalid array: " ++ v))
  else
    match parseIntRust v with
    | some n => .ok (.integer n)
    | none =>
      match parseFloatSimple v with
      | some q => .ok (.float q)
      | none => .ok (.string v)

/-- First character index at which `pat` occurs as a substring (Rust
`str::find`). -/
def findSub (pat : List Char) : List Char → Option Nat
  | [] => none
  | c :: rest =>
    if pat.isPrefixOf (c :: rest) then some 0
    else (findSub pat rest).map (· + 1)

/-- The operator table of `parse_single_condition`, in source order (longest
prefixes first), paired with the `Operator` each maps to. -/
def OPERATORS : List (String × Operator) :=
  [(">=", .greaterEqual), ("<=", .lessEqual), ("!=", .notEqual),
   (">", .greater), ("<", .less), ("=", .equal),
   ("?", .includesAny), ("!", .excludesAll)]

/-- Try each operator string in order, returning the first that occurs in
the condition together with its first occurrence position. -/
def findOperator : List (String × Operator) → String → Option (String × Operator × Nat)
  | [], _ => none
  | (opStr, op) :: ops, c =>
    match findSub opStr.toList c.toList with
    | some pos => some (opStr, op, pos)
    | none => findOperator ops c

/-- `parse_single_condition`: split the atom at the first operator found. -/
def parseSingleCondition (condition : String) : Except LifeRestartError AstNode :=
  match findOperator OPERATORS condition with
  | some (opStr, op, pos) =>
    let property := strTrim ((condition.toList.take pos).asString)
    let valueStr := strTrim ((condition.toList.drop (pos + opStr.length)).asString)
    match parseValue valueStr with
    | .ok value => .ok (.single ⟨property, op, value⟩)
    | .error e => .error e
  | none => .error (.invalidCondition ("No operator found in: " ++ condition))

/-- Scan of `parse_tokens` that records the positions of the last
paren-depth-zero `|` and, while no such `|` has been seen, the last
paren-depth-zero `&`. -/
def scanAux : Nat → Int → Option Nat → Option Nat → List Token → Option Nat × Option Nat
  | _, _, orPos, andPos, [] => (orPos, andPos)
  | i, depth, orPos, andPos, t :: ts =>
    match t with
    | .lparen => scanAux (i + 1) (depth + 1) orPos andPos ts
    | .rparen => scanAux (i + 1) (depth - 1) orPos andPos ts
    | .or => scanAux (i + 1) depth (if depth = 0 then some i else orPos) andPos ts
    | .and =>
      scanAux (i + 1) depth orPos
        (if depth = 0 ∧ orPos = none then some i else andPos) ts
    | .cond _ => scanAux (i + 1) depth orPos andPos ts

theorem scanAux_lt (ts : List Token) : ∀ (i : Nat) (depth : Int)
    (orPos andPos : Option Nat),
    (∀ p, orPos = some p → p < i) → (∀ p, andPos = some p → p < i) →
    (∀ p, (scanAux i depth orPos andPos ts).1 = some p → p < i + ts.length) ∧
    (∀ p, (scanAux i depth orPos andPos ts).2 = some p → p < i + ts.length) := by
  induction ts with
  | nil =>
    intro i depth orPos andPos ho ha
    simp only [scanAux, List.length_nil]
    exact ⟨fun p hp => by have := ho p hp; omega, fun p hp => by have := ha p hp; omega⟩
  | cons t ts ih =>
    intro i depth orPos andPos ho ha
    have step : ∀ (d : Int) (o a : Option Nat),
        (∀ p, o = some p → p < i + 1) → (∀ p, a = some p → p < i + 1) →
        (∀ p, (scanAux (i + 1) d o a ts).1 = some p → p < i + (t :: ts).length) ∧
        (∀ p, (scanAux (i + 1) d o a ts).2 = some p → p < i + (t :: ts).length) := by
      intro d o a ho' ha'
      have h := ih (i + 1) d o a ho' ha'
      simp only [List.length_cons]
      exact ⟨fun p hp => by have := h.1 p hp; omega,
             fun p hp => by have := h.2 p hp; omega⟩
    match t with
    | .lparen =>
      exact step _ _ _ (fun p hp => by have := ho p hp; omega)
        (fun p hp => by have := ha p hp; omega)
    | .rparen =>
      exact step _ _ _ (fun p hp => by have := ho p hp; omega)
        (fun p hp => by have := ha p hp; omega)
    | .cond c =>
      exact step _ _ _ (fun p hp => by have := ho p hp; omega)
        (fun p hp => by have := ha p hp; omega)
    | .or =>
      refine step _ _ _ ?_ (fun p hp => by have := ha p hp; omega)
      intro p hp
      split at hp
      · cases hp; omega
      · have := ho p hp; omega
    | .and =>
      refine step _ _ _ (fun p hp => by have := ho p hp; omega) ?_
      intro p hp
      split at hp
      · cases hp; omega
      · have := ha p hp; omega

/-- One layer of `parse_tokens`, with the recursive call abstracted:
empty input is an error; otherwise split at the last paren-depth-zero `|`,
else at the last paren-depth-zero `&`, else unwrap enclosing parentheses,
else recognise a lone atom. -/
def parseTokensGo (recur : List Token → Except LifeRestartError AstNode)
    (ts : List Token) : Except LifeRestartError AstNode :=
  if ts.isEmpty then .error (.invalidCondition "Empty token list")
  else
    match (scanAux 0 0 none none ts).1 with
    | some pos => do
      let left ← recur (ts.take pos)
      let right ← recur (ts.drop (pos + 1))
      return .or left right
    | none =>
      match (scanAux 0 0 none none ts).2 with
      | some pos => do
        let left ← recur (ts.take pos)
        let right ← recur (ts.drop (pos + 1))
        return .and left right
      | none =>
        if 2 ≤ ts.length ∧ ts.head? = some .lparen ∧ ts.getLast? = some .rparen then
          recur ((ts.drop 1).dropLast)
        else
          match ts with
          | [Token.cond c] => parseSingleCondition c
          | _ => .error (.invalidCondition "Cannot parse tokens")

/-- `parse_tokens` recursion on an explicit fuel, making the function
structurally recursive (hence kernel-computable).  Every recursive call of
the source strictly shrinks the token list, so with fuel `ts.length + 1`
the fuel-out arm is unreachable (`parseTokensF_congr`). -/
def parseTokensF : Nat → List Token → Except LifeRestartError AstNode
  | 0, _ => .error (.invalidCondition "Cannot parse tokens")
  | fuel + 1, ts => parseTokensGo (parseTokensF fuel) ts

theorem parseTokensF_congr (f1 : Nat) : ∀ (f2 : Nat) (ts : List Token),
    ts.length < f1 → ts.length < f2 →
    parseTokensF f1 ts = parseTokensF f2 ts := by
  induction f1 with
  | zero => intro f2 ts h1 _; omega
  | succ n ih =>
    intro f2 ts h1 h2
    match f2, h2 with
    | m + 1, h2 =>
      show parseTokensGo (parseTokensF n) ts = parseTokensGo (parseTokensF m) ts
      unfold parseTokensGo
      by_cases hts : ts.isEmpty
      · simp [hts]
      · have hlen : 0 < ts.length := by
          cases ts with
          | nil => simp at hts
          | cons a l => simp
        simp only [if_neg hts]
        cases hsc1 : (scanAux 0 0 none none ts).1 with
        | some pos =>
          have hp : pos < ts.length := by
            have h := (scanAux_lt ts 0 0 none none (by simp) (by simp)).1 pos hsc1
            simpa using h
          have e1 : parseTokensF n (ts.take pos) = parseTokensF m (ts.take pos) := by
            apply ih
            · simp [List.length_take]; omega
            · simp [List.length_take]; omega
          have e2 : parseTokensF n (ts.drop (pos + 1)) =
              parseTokensF m (ts.drop (pos + 1)) := by
            apply ih
            · simp [List.length_drop]; omega
            · simp [List.length_drop]; omega
          simp only [e1, e2]
        | none =>
          cases hsc2 : (scanAux 0 0 none none ts).2 with
          | some pos =>
            have hp : pos < ts.length := by
              have h := (scanAux_lt ts 0 0 none none (by simp) (by simp)).2 pos hsc2
              simpa using h
            have e1 : parseTokensF n (ts.take pos) = parseTokensF m (ts.take pos) := by
              apply ih
              · simp [List.length_take]; omega
              · simp [List.length_take]; omega
            have e2 : parseTokensF n (ts.drop (pos + 1)) =
                parseTokensF m (ts.drop (pos + 1)) := by
              apply ih
              · simp [List.length_drop]; omega
              · simp [List.length_drop]; omega
            simp only [e1, e2]
          | none =>
            by_cases hpar : 2 ≤ ts.length ∧ ts.head? = some .lparen ∧
                ts.getLast? = some .rparen
            · rw [if_pos hpar, if_pos hpar]
              apply ih
              · simp; omega
              · simp; omega
            · rw [if_neg hpar, if_neg hpar]

/-- `parse_tokens` at its canonical fuel. -/
def parseTokens (ts : List Token) : Except LifeRestartError AstNode :=
  parseTokensF (ts.length + 1) ts

theorem parseTokens_eq_fuel (fuel : Nat) (ts : List Token)
    (h : ts.length < fuel) : parseTokens ts = parseTokensF fuel ts :=
  parseTokensF_congr (ts.length + 1) fuel ts (by omega) h

/-- `parse`: trim, reject the empty condition, tokenise, parse. -/
def parse (condition : String) : Except LifeRestartError AstNode :=
  let c := strTrim condition
  if strIsEmpty c then .error (.invalidCondition "Empty condition")
  else
    match tokenize c with
    | .ok tokens => parseTokens tokens
    | .error e => .error e

/-- Property values handed to the evaluator (src/src/condition/evaluator.rs). -/
inductive PropertyValue where
  | integer (n : Int)
  | list (l : List Int)
  deriving Repr, DecidableEq

/-- `PropertyState::get_value`: name-to-field dispatch; `L*`/`H*` fold the
current value into the recorded extremum; unknown names yield integer 0. -/
def PropertyState.get_value (s : PropertyState) (prop : String) : PropertyValue :=
  match prop with
  | "AGE" => .integer s.age
  | "CHR" => .integer s.chr
  | "INT" => .integer s.int
  | "STR" => .integer s.str_
  | "MNY" => .integer s.mny
  | "SPR" => .integer s.spr
  | "LIF" => .integer s.lif
  | "TLT" => .list s.tlt
  | "EVT" => .list s.evt
  | "LAGE" => .integer (min s.lage s.age)
  | "LCHR" => .integer (min s.lchr s.chr)
  | "LINT" => .integer (min s.lint s.int)
  | "LSTR" => .integer (min s.lstr s.str_)
  | "LMNY" => .integer (min s.lmny s.mny)
  | "LSPR" => .integer (min s.lspr s.spr)
  | "HAGE" => .integer (max s.hage s.age)
  | "HCHR" => .integer (max s.hchr s.chr)
  | "HINT" => .integer (max s.hint s.int)
  | "HSTR" => .integer (max s.hstr s.str_)
  | "HMNY" => .integer (max s.hmny s.mny)
  | "HSPR" => .integer (max s.hspr s.spr)
  | "SUM" => .integer s.calculate_summary_score
  | _ => .integer 0

/-- `check_single`: the operator/value dispatch table; unsupported
combinations default to `false`. -/
def checkSingle (cond : SingleCondition) (s : PropertyState) : Bool :=
  match s.get_value cond.property, cond.value, cond.operator with
  | .integer pv, .integer cv, .greater => decide (pv > cv)
  | .integer pv, .integer cv, .less => decide (pv < cv)
  | .integer pv, .integer cv, .greaterEqual => decide (pv ≥ cv)
  | .integer pv, .integer cv, .lessEqual => decide (pv ≤ cv)
  | .integer pv, .integer cv, .equal => decide (pv = cv)
  | .integer pv, .integer cv, .notEqual => decide (pv ≠ cv)
  | .integer pv, .float cv, .greater => decide ((pv : ℚ) > cv)
  | .integer pv, .float cv, .less => decide ((pv : ℚ) < cv)
  | .integer pv, .float cv, .greaterEqual => decide ((pv : ℚ) ≥ cv)
  | .integer pv, .float cv, .lessEqual => decide ((pv : ℚ) ≤ cv)
  | .list l, .integer cv, .equal => l.contains cv
  | .list l, .integer cv, .notEqual => !(l.contains cv)
  | .list l, .array arr, .includesAny => l.any (fun v => arr.contains v)
  | .integer pv, .array arr, .includesAny => arr.contains pv
  | .list l, .array arr, .excludesAll => l.all (fun v => !(arr.contains v))
  | .integer pv, .array arr, .excludesAll => !(arr.contains pv)
  | _, _, _ => false

/-- `check`: recursive AST evaluation. -/
def check (ast : AstNode) (s : PropertyState) : Bool :=
  match ast with
  | .single c => checkSingle c s
  | .and l r => check l s && check r s
  | .or l r => check l s || check r s

/-- `check_condition` (src/src/condition/cache.rs): the empty string is
`true`; otherwise parse and evaluate.  The parse cache is modelled as
transparent, per its invariant that `cache[s]` is observationally equal to
`parse(s)`. -/
def checkCondition (condition : String) (s : PropertyState) :
    Except LifeRestartError Bool :=
  if strIsEmpty condition then .ok true
  else
    match parse condition with
    | .ok ast => .ok (check ast s)
    | .error e => .error e

/-- Call-site wrapper for `check_condition(...).unwrap_or(default)`. -/
def checkConditionD (default : Bool) (condition : String) (s : PropertyState) :
    Bool :=
  match checkCondition condition s with
  | .ok b => b
  | .error _ => default

instance {ε α : Type _} [DecidableEq ε] [DecidableEq α] :
    DecidableEq (Except ε α) := fun x y =>
  match x, y with
  | .ok a, .ok b =>
    if h : a = b then isTrue (by rw [h]) else isFalse (fun hh => h (Except.ok.inj hh))
  | .error a, .error b =>
    if h : a = b then isTrue (by rw [h]) else isFalse (fun hh => h (Except.error.inj hh))
  | .ok _, .error _ => isFalse (fun hh => Except.noConfusion hh)
  | .error _, .ok _ => isFalse (fun hh => Except.noConfusion hh)

/-- Paren-depth contribution of one token. -/
def tokenDelta (t : Token) : Int :=
  match t with
  | .lparen => 1
  | .rparen => -1
  | _ => 0

/-- Running paren depth accumulated over a token list. -/
def parenBalance (ts : List Token) : Int :=
  ts.foldl (fun d t => d + tokenDelta t) 0

/-- Position `i` holds token `tok` at paren depth zero, relative to a
starting depth `d`. -/
def isOuterTok (tok : Token) (d : Int) (ts : List Token) (i : Nat) : Prop :=
  ts[i]? = some tok ∧ d + parenBalance (ts.take i) = 0

instance (tok : Token) (d : Int) (ts : List Token) (i : Nat) :
    Decidable (isOuterTok tok d ts i) := by
  unfold isOuterTok
  infer_instance

/-- Rightmost position of `tok` at paren depth zero (relative depth `d`). -/
def lastOuter (tok : Token) : Int → List Token → Option Nat
  | _, [] => none
  | d, t :: ts =>
    match lastOuter tok (d + tokenDelta t) ts with
    | some j => some (j + 1)
    | none => if t = tok ∧ d = 0 then some 0 else none

theorem parenBalance_foldl (l : List Token) (d : Int) :
    l.foldl (fun d t => d + tokenDelta t) d = d + parenBalance l := by
  induction l generalizing d with
  | nil => simp [parenBalance]
  | cons t l ih =>
    simp only [List.foldl_cons, parenBalance]
    rw [ih, ih (0 + tokenDelta t)]
    omega

theorem parenBalance_cons (t : Token) (l : List Token) :
    parenBalance (t :: l) = tokenDelta t + parenBalance l := by
  simp only [parenBalance, List.foldl_cons]
  rw [parenBalance_foldl]
  simp [parenBalance]

theorem lastOuter_cons (tok t : Token) (ts : List Token) (d : Int) :
    lastOuter tok d (t :: ts) =
      match lastOuter tok (d + tokenDelta t) ts with
      | some j => some (j + 1)
      | none => if t = tok ∧ d = 0 then some 0 else none := rfl

theorem isOuterTok_zero (tok : Token) (d : Int) (t : Token) (ts : List Token) :
    isOuterTok tok d (t :: ts) 0 ↔ (t = tok ∧ d = 0) := by
  simp [isOuterTok, parenBalance]

theorem isOuterTok_succ (tok : Token) (d : Int) (t : Token) (ts : List Token)
    (j : Nat) :
    isOuterTok tok d (t :: ts) (j + 1) ↔ isOuterTok tok (d + tokenDelta t) ts j := by
  simp only [isOuterTok, List.getElem?_cons_succ, List.take_succ_cons,
    parenBalance_cons]
  constructor
  · rintro ⟨h1, h2⟩
    exact ⟨h1, by omega⟩
  · rintro ⟨h1, h2⟩
    exact ⟨h1, by omega⟩

theorem isOuterTok_lt_length {tok : Token} {d : Int} {ts : List Token} {i : Nat}
    (h : isOuterTok tok d ts i) : i < ts.length := by
  rcases h with ⟨h1, _⟩
  by_contra hge
  rw [List.getElem?_eq_none (by omega)] at h1
  exact Option.noConfusion h1

theorem lastOuter_correct (tok : Token) (ts : List Token) : ∀ d : Int,
    (∀ p, lastOuter tok d ts = some p →
      isOuterTok tok d ts p ∧ ∀ j, isOuterTok tok d ts j → j ≤ p) ∧
    (lastOuter tok d ts = none → ∀ j, ¬ isOuterTok tok d ts j) := by
  induction ts with
  | nil =>
    intro d
    refine ⟨fun p hp => by simp [lastOuter] at hp, fun _ j hj => ?_⟩
    simp [isOuterTok] at hj
  | cons t ts ih =>
    intro d
    constructor
    · intro p hp
      rw [lastOuter_cons] at hp
      cases hrest : lastOuter tok (d + tokenDelta t) ts with
      | some j =>
        rw [hrest] at hp
        have hp' : some (j + 1) = some p := hp
        obtain rfl : j + 1 = p := Option.some.inj hp'
        obtain ⟨hj1, hj2⟩ := (ih (d + tokenDelta t)).1 j hrest
        refine ⟨(isOuterTok_succ tok d t ts j).mpr hj1, ?_⟩
        intro j' hj'
        cases j' with
        | zero => omega
        | succ k =>
          have := hj2 k ((isOuterTok_succ tok d t ts k).mp hj')
          omega
      | none =>
        rw [hrest] at hp
        have hp' : (if t = tok ∧ d = 0 then some 0 else none : Option Nat) = some p := hp
        split at hp'
        · rename_i hcond
          obtain rfl : (0 : Nat) = p := Option.some.inj hp'
          refine ⟨(isOuterTok_zero tok d t ts).mpr hcond, ?_⟩
          intro j' hj'
          cases j' with
          | zero => omega
          | succ k =>
            exact absurd ((isOuterTok_succ tok d t ts k).mp hj')
              ((ih (d + tokenDelta t)).2 hrest k)
        · exact Option.noConfusion hp'
    · intro hnone j hj
      rw [lastOuter_cons] at hnone
      cases hrest : lastOuter tok (d + tokenDelta t) ts with
      | some j' =>
        rw [hrest] at hnone
        exact Option.noConfusion (show some (j' + 1) = (none : Option Nat) from hnone)
      | none =>
        rw [hrest] at hnone
        have hnone' : (if t = tok ∧ d = 0 then some 0 else none : Option Nat) = none := hnone
        split at hnone'
        · exact Option.noConfusion hnone'
        · rename_i hcond
          cases j with
          | zero => exact hcond ((isOuterTok_zero tok d t ts).mp hj)
          | succ k =>
            exact (ih (d + tokenDelta t)).2 hrest k
              ((isOuterTok_succ tok d t ts k).mp hj)

theorem scanAux_fst (ts : List Token) : ∀ (i : Nat) (d : Int)
    (orPos andPos : Option Nat),
    (scanAux i d orPos andPos ts).1 =
      match lastOuter .or d ts with
      | some j => some (i + j)
      | none => orPos := by
  induction ts with
  | nil => intro i d orPos andPos; simp [scanAux, lastOuter]
  | cons t ts ih =>
    intro i d orPos andPos
    rw [lastOuter_cons]
    match t with
    | .lparen =>
      rw [show scanAux i d orPos andPos (.lparen :: ts) =
        scanAux (i + 1) (d + 1) orPos andPos ts from rfl]
      rw [ih]
      simp only [tokenDelta]
      cases lastOuter Token.or (d + 1) ts with
      | some j =>
        show (some (i + 1 + j) : Option Nat) = some (i + (j + 1))
        congr 1
        omega
      | none => rfl
    | .rparen =>
      rw [show scanAux i d orPos andPos (.rparen :: ts) =
        scanAux (i + 1) (d - 1) orPos andPos ts from rfl]
      rw [ih]
      rw [show d - 1 = d + -1 from sub_eq_add_neg d 1]
      simp only [tokenDelta]
      cases lastOuter Token.or (d + -1) ts with
      | some j =>
        show (some (i + 1 + j) : Option Nat) = some (i + (j + 1))
        congr 1
        omega
      | none => rfl
    | .cond c =>
      rw [show scanAux i d orPos andPos (.cond c :: ts) =
        scanAux (i + 1) d orPos andPos ts from rfl]
      rw [ih]
      simp only [tokenDelta, add_zero]
      cases lastOuter Token.or d ts with
      | some j =>
        show (some (i + 1 + j) : Option Nat) = some (i + (j + 1))
        congr 1
        omega
      | none => rfl
    | .or =>
      rw [show scanAux i d orPos andPos (.or :: ts) =
        scanAux (i + 1) d (if d = 0 then some i else orPos) andPos ts from rfl]
      rw [ih]
      simp only [tokenDelta, add_zero]
      cases lastOuter Token.or d ts with
      | some j =>
        show (some (i + 1 + j) : Option Nat) = some (i + (j + 1))
        congr 1
        omega
      | none =>
        by_cases hd : d = 0
        · subst hd
          rfl
        · rw [if_neg hd,
            if_neg (show ¬ (True ∧ d = 0) from by simp [hd])]
    | .and =>
      rw [show scanAux i d orPos andPos (.and :: ts) =
        scanAux (i + 1) d orPos
          (if d = 0 ∧ orPos = none then some i else andPos) ts from rfl]
      rw [ih]
      simp only [tokenDelta, add_zero]
      cases lastOuter Token.or d ts with
      | some j =>
        show (some (i + 1 + j) : Option Nat) = some (i + (j + 1))
        congr 1
        omega
      | none => rfl

theorem scanAux_snd (ts : List Token) : ∀ (i : Nat) (d : Int)
    (andPos : Option Nat), lastOuter .or d ts = none →
    (scanAux i d none andPos ts).2 =
      match lastOuter .and d ts with
      | some j => some (i + j)
      | none => andPos := by
  induction ts with
  | nil => intro i d andPos _; simp [scanAux, lastOuter]
  | cons t ts ih =>
    intro i d andPos hor
    have horRest : lastOuter .or (d + tokenDelta t) ts = none := by
      rw [lastOuter_cons] at hor
      cases h : lastOuter .or (d + tokenDelta t) ts with
      | some j => rw [h] at hor; exact Option.noConfusion hor
      | none => rfl
    rw [lastOuter_cons]
    match t with
    | .lparen =>
      rw [show scanAux i d none andPos (.lparen :: ts) =
        scanAux (i + 1) (d + 1) none andPos ts from rfl]
      rw [ih _ _ _ (by simpa [tokenDelta] using horRest)]
      simp only [tokenDelta]
      cases lastOuter Token.and (d + 1) ts with
      | some j =>
        show (some (i + 1 + j) : Option Nat) = some (i + (j + 1))
        congr 1
        omega
      | none => rfl
    | .rparen =>
      rw [show scanAux i d none andPos (.rparen :: ts) =
        scanAux (i + 1) (d - 1) none andPos ts from rfl]
      rw [show d - 1 = d + -1 from sub_eq_add_neg d 1]
      rw [ih _ _ _ (by simpa [tokenDelta] using horRest)]
      simp only [tokenDelta]
      cases lastOuter Token.and (d + -1) ts with
      | some j =>
        show (some (i + 1 + j) : Option Nat) = some (i + (j + 1))
        congr 1
        omega
      | none => rfl
    | .cond c =>
      rw [show scanAux i d none andPos (.cond c :: ts) =
        scanAux (i + 1) d none andPos ts from rfl]
      rw [ih _ _ _ (by simpa [tokenDelta] using horRest)]
      simp only [tokenDelta, add_zero]
      cases lastOuter Token.and d ts with
      | some j =>
        show (some (i + 1 + j) : Option Nat) = some (i + (j + 1))
        congr 1
        omega
      | none => rfl
    | .or =>
      have hd : ¬ d = 0 := by
        intro hd0
        rw [lastOuter_cons] at hor
        rw [horRest] at hor
        simp [hd0] at hor
      rw [show scanAux i d none andPos (.or :: ts) =
        scanAux (i + 1) d (if d = 0 then some i else none) andPos ts from rfl]
      rw [if_neg hd]
      rw [ih _ _ _ (by simpa [tokenDelta] using horRest)]
      simp only [tokenDelta, add_zero]
      cases lastOuter Token.and d ts with
      | some j =>
        show (some (i + 1 + j) : Option Nat) = some (i + (j + 1))
        congr 1
        omega
      | none => rfl
    | .and =>
      rw [show scanAux i d none andPos (.and :: ts) =
        scanAux (i + 1) d none
          (if d = 0 ∧ (none : Option Nat) = none then some i else andPos) ts from rfl]
      rw [ih _ _ _ (by simpa [tokenDelta] using horRest)]
      simp only [tokenDelta, add_zero]
      cases lastOuter Token.and d ts with
      | some j =>
        show (some (i + 1 + j) : Option Nat) = some (i + (j + 1))
        congr 1
        omega
      | none =>
        by_cases hd : d = 0
        · subst hd
          rfl
        · rw [if_neg (show ¬ (d = 0 ∧ True) from by simp [hd]),
            if_neg (show ¬ (True ∧ d = 0) from by simp [hd])]


theorem parseTokens_or_split (ts : List Token) (p : Nat)
    (h1 : isOuterTok .or 0 ts p) (h2 : ∀ j, isOuterTok .or 0 ts j → j ≤ p) :
    parseTokens ts =
      (parseTokens (ts.take p)).bind fun left =>
        (parseTokens (ts.drop (p + 1))).bind fun right =>
          Except.ok (.or left right) := by
  have hts : ts ≠ [] := by
    intro h
    subst h
    exact absurd h1 (by simp [isOuterTok])
  have hlast : lastOuter .or 0 ts = some p := by
    cases hcase : lastOuter .or 0 ts with
    | none => exact absurd h1 ((lastOuter_correct .or ts 0).2 hcase p)
    | some q =>
      obtain ⟨hq1, hq2⟩ := (lastOuter_correct .or ts 0).1 q hcase
      have hpq : p ≤ q := hq2 p h1
      have hqp : q ≤ p := h2 q hq1
      have : q = p := by omega
      rw [this]
  have hscan1 : (scanAux 0 0 none none ts).1 = some p := by
    rw [scanAux_fst, hlast]
    simp
  have hplen : p < ts.length := isOuterTok_lt_length h1
  have hlen0 : 0 < ts.length := by omega
  have htake : (ts.take p).length < ts.length := by
    simp [List.length_take]
    omega
  have hdrop : (ts.drop (p + 1)).length < ts.length := by
    simp [List.length_drop]
    omega
  rw [show parseTokens ts = parseTokensGo (parseTokensF ts.length) ts from rfl]
  unfold parseTokensGo
  rw [if_neg (show ¬ (ts.isEmpty = true) from by simpa using hts), hscan1]
  show (parseTokensF ts.length (ts.take p)).bind (fun left =>
    (parseTokensF ts.length (ts.drop (p + 1))).bind fun right =>
      Except.ok (AstNode.or left right)) = _
  rw [← parseTokens_eq_fuel ts.length (ts.take p) htake]
  simp only [(parseTokens_eq_fuel ts.length (ts.drop (p + 1)) hdrop).symm]

theorem parseTokens_and_split (ts : List Token) (p : Nat)
    (hno : ∀ j, ¬ isOuterTok .or 0 ts j)
    (h1 : isOuterTok .and 0 ts p) (h2 : ∀ j, isOuterTok .and 0 ts j → j ≤ p) :
    parseTokens ts =
      (parseTokens (ts.take p)).bind fun left =>
        (parseTokens (ts.drop (p + 1))).bind fun right =>
          Except.ok (.and left right) := by
  have hts : ts ≠ [] := by
    intro h
    subst h
    exact absurd h1 (by simp [isOuterTok])
  have hlastOr : lastOuter .or 0 ts = none := by
    cases hcase : lastOuter .or 0 ts with
    | none => rfl
    | some q => exact absurd ((lastOuter_correct .or ts 0).1 q hcase).1 (hno q)
  have hlastAnd : lastOuter .and 0 ts = some p := by
    cases hcase : lastOuter .and 0 ts with
    | none => exact absurd h1 ((lastOuter_correct .and ts 0).2 hcase p)
    | some q =>
      obtain ⟨hq1, hq2⟩ := (lastOuter_correct .and ts 0).1 q hcase
      have hpq : p ≤ q := hq2 p h1
      have hqp : q ≤ p := h2 q hq1
      have : q = p := by omega
      rw [this]
  have hscan1 : (scanAux 0 0 none none ts).1 = none := by
    rw [scanAux_fst, hlastOr]
  have hscan2 : (scanAux 0 0 none none ts).2 = some p := by
    rw [scanAux_snd ts 0 0 none hlastOr, hlastAnd]
    simp
  have hplen : p < ts.length := isOuterTok_lt_length h1
  have hlen0 : 0 < ts.length := by omega
  have htake : (ts.take p).length < ts.length := by
    simp [List.length_take]
    omega
  have hdrop : (ts.drop (p + 1)).length < ts.length := by
    simp [List.length_drop]
    omega
  rw [show parseTokens ts = parseTokensGo (parseTokensF ts.length) ts from rfl]
  unfold parseTokensGo
  rw [if_neg (show ¬ (ts.isEmpty = true) from by simpa using hts), hscan1, hscan2]
  show (parseTokensF ts.length (ts.take p)).bind (fun left =>
    (parseTokensF ts.length (ts.drop (p + 1))).bind fun right =>
      Except.ok (AstNode.and left right)) = _
  rw [← parseTokens_eq_fuel ts.length (ts.take p) htake]
  simp only [(parseTokens_eq_fuel ts.length (ts.drop (p + 1)) hdrop).symm]

theorem parseTokens_paren (ts : List Token)
    (hnoOr : ∀ j, ¬ isOuterTok .or 0 ts j)
    (hnoAnd : ∀ j, ¬ isOuterTok .and 0 ts j)
    (hlen : 2 ≤ ts.length) (hhead : ts.head? = some .lparen)
    (htail : ts.getLast? = some .rparen) :
    parseTokens ts = parseTokens ((ts.drop 1).dropLast) := by
  have hts : ts ≠ [] := by
    intro h
    subst h
    simp at hlen
  have hlastOr : lastOuter .or 0 ts = none := by
    cases hcase : lastOuter .or 0 ts with
    | none => rfl
    | some q => exact absurd ((lastOuter_correct .or ts 0).1 q hcase).1 (hnoOr q)
  have hlastAnd : lastOuter .and 0 ts = none := by
    cases hcase : lastOuter .and 0 ts with
    | none => rfl
    | some q => exact absurd ((lastOuter_correct .and ts 0).1 q hcase).1 (hnoAnd q)
  have hscan1 : (scanAux 0 0 none none ts).1 = none := by
    rw [scanAux_fst, hlastOr]
  have hscan2 : (scanAux 0 0 none none ts).2 = none := by
    rw [scanAux_snd ts 0 0 none hlastOr, hlastAnd]
  have hinner : ((ts.drop 1).dropLast).length < ts.length := by
    simp
    omega
  rw [show parseTokens ts = parseTokensGo (parseTokensF ts.length) ts from rfl]
  unfold parseTokensGo
  rw [if_neg (show ¬ (ts.isEmpty = true) from by simpa using hts), hscan1, hscan2]
  rw [if_pos ⟨hlen, hhead, htail⟩,
    ← parseTokens_eq_fuel ts.length ((ts.drop 1).dropLast) hinner]

theorem parseTokens_atom (c : String) :
    parseTokens [Token.cond c] = parseSingleCondition c := rfl

/-- C9 (amended): with more than one outermost `|`, `parse_tokens` splits at
the RIGHTMOST outermost `|` (hence builds a left-associative chain); it
splits at the rightmost outermost `&` only when no outermost `|` exists;
then it unwraps enclosing parentheses; then a lone token is parsed as a
single atom. -/
theorem c9_parse_phase_order :
    (∀ (ts : List Token) (p : Nat), isOuterTok .or 0 ts p →
      (∀ j, isOuterTok .or 0 ts j → j ≤ p) →
      parseTokens ts =
        (parseTokens (ts.take p)).bind fun left =>
          (parseTokens (ts.drop (p + 1))).bind fun right =>
            Except.ok (.or left right)) ∧
    (∀ (ts : List Token) (p : Nat), (∀ j, ¬ isOuterTok .or 0 ts j) →
      isOuterTok .and 0 ts p → (∀ j, isOuterTok .and 0 ts j → j ≤ p) →
      parseTokens ts =
        (parseTokens (ts.take p)).bind fun left =>
          (parseTokens (ts.drop (p + 1))).bind fun right =>
            Except.ok (.and left right)) ∧
    (∀ ts : List Token, (∀ j, ¬ isOuterTok .or 0 ts j) →
      (∀ j, ¬ isOuterTok .and 0 ts j) → 2 ≤ ts.length →
      ts.head? = some .lparen → ts.getLast? = some .rparen →
      parseTokens ts = parseTokens ((ts.drop 1).dropLast)) ∧
    (∀ c : String, parseTokens [Token.cond c] = parseSingleCondition c) :=
  ⟨parseTokens_or_split, parseTokens_and_split, parseTokens_paren,
    parseTokens_atom⟩

/-- C9 (counterexample): on the token stream of `CHR>1|CHR>2|CHR>3`, index 1
is the LEFTMOST outermost `|`, yet `parse_tokens` does not split there: it
returns the left-associative `Or(Or(a,b),c)`, whereas splitting at the
leftmost outermost `|` first would return `Or(a,Or(b,c))`. -/
theorem c9_leftmost_counterexample :
    isOuterTok .or 0 [Token.cond "CHR>1", .or, .cond "CHR>2", .or, .cond "CHR>3"] 1 ∧
    (∀ j, isOuterTok .or 0
      [Token.cond "CHR>1", .or, .cond "CHR>2", .or, .cond "CHR>3"] j → 1 ≤ j) ∧
    parseTokens [Token.cond "CHR>1", .or, .cond "CHR>2", .or, .cond "CHR>3"] =
      Except.ok (.or
        (.or (.single ⟨"CHR", .greater, .integer 1⟩)
          (.single ⟨"CHR", .greater, .integer 2⟩))
        (.single ⟨"CHR", .greater, .integer 3⟩)) ∧
    ((parseTokens ([Token.cond "CHR>1", .or, .cond "CHR>2", .or,
        .cond "CHR>3"].take 1)).bind fun left =>
      (parseTokens ([Token.cond "CHR>1", .or, .cond "CHR>2", .or,
        .cond "CHR>3"].drop 2)).bind fun right =>
        Except.ok (AstNode.or left right)) =
      Except.ok (.or (.single ⟨"CHR", .greater, .integer 1⟩)
        (.or (.single ⟨"CHR", .greater, .integer 2⟩)
          (.single ⟨"CHR", .greater, .integer 3⟩))) ∧
    (AstNode.or
        (.or (.single ⟨"CHR", .greater, .integer 1⟩)
          (.single ⟨"CHR", .greater, .integer 2⟩))
        (.single ⟨"CHR", .greater, .integer 3⟩) ≠
      AstNode.or (.single ⟨"CHR", .greater, .integer 1⟩)
        (.or (.single ⟨"CHR", .greater, .integer 2⟩)
          (.single ⟨"CHR", .greater, .integer 3⟩))) := by
  have h23 : parseTokens [Token.cond "CHR>2", .or, .cond "CHR>3"] =
      Except.ok (.or (.single ⟨"CHR", .greater, .integer 2⟩)
        (.single ⟨"CHR", .greater, .integer 3⟩)) := by
    rw [parseTokens_or_split [Token.cond "CHR>2", .or, .cond "CHR>3"] 1
      (by decide) (fun j hj => by
        have hlt := isOuterTok_lt_length hj
        simp at hlt
        interval_cases j <;> first | omega | exact absurd hj (by decide))]
    show (parseTokens [Token.cond "CHR>2"]).bind (fun left =>
      (parseTokens [Token.cond "CHR>3"]).bind fun right =>
        Except.ok (AstNode.or left right)) = _
    rw [parseTokens_atom]
    simp only [parseTokens_atom]
    decide
  have h12 : parseTokens [Token.cond "CHR>1", .or, .cond "CHR>2"] =
      Except.ok (.or (.single ⟨"CHR", .greater, .integer 1⟩)
        (.single ⟨"CHR", .greater, .integer 2⟩)) := by
    rw [parseTokens_or_split [Token.cond "CHR>1", .or, .cond "CHR>2"] 1
      (by decide) (fun j hj => by
        have hlt := isOuterTok_lt_length hj
        simp at hlt
        interval_cases j <;> first | omega | exact absurd hj (by decide))]
    show (parseTokens [Token.cond "CHR>1"]).bind (fun left =>
      (parseTokens [Token.cond "CHR>2"]).bind fun right =>
        Except.ok (AstNode.or left right)) = _
    rw [parseTokens_atom]
    simp only [parseTokens_atom]
    decide
  refine ⟨by decide, ?_, ?_, ?_, by decide⟩
  · intro j hj
    have hlt := isOuterTok_lt_length hj
    simp at hlt
    interval_cases j <;> first | omega | exact absurd hj (by decide)
  · rw [parseTokens_or_split
      [Token.cond "CHR>1", .or, .cond "CHR>2", .or, .cond "CHR>3"] 3
      (by decide) (fun j hj => by
        have hlt := isOuterTok_lt_length hj
        simp at hlt
        interval_cases j <;> first | omega | exact absurd hj (by decide))]
    show (parseTokens [Token.cond "CHR>1", .or, .cond "CHR>2"]).bind (fun left =>
      (parseTokens [Token.cond "CHR>3"]).bind fun right =>
        Except.ok (AstNode.or left right)) = _
    rw [h12]
    simp only [parseTokens_atom]
    decide
  · show (parseTokens [Token.cond "CHR>1"]).bind (fun left =>
      (parseTokens [Token.cond "CHR>2", .or, .cond "CHR>3"]).bind fun right =>
        Except.ok (AstNode.or left right)) = _
    rw [parseTokens_atom, h23]
    decide

/-- C9 (witness): the amended phase-order theorem applied to the concrete
stream `CHR>1|CHR>2|CHR>3`, whose rightmost outermost `|` sits at index 3. -/
theorem c9_parse_phase_order_witness :
    isOuterTok .or 0 [Token.cond "CHR>1", .or, .cond "CHR>2", .or, .cond "CHR>3"] 3 ∧
    parseTokens [Token.cond "CHR>1", .or, .cond "CHR>2", .or, .cond "CHR>3"] =
      (parseTokens [Token.cond "CHR>1", .or, .cond "CHR>2"]).bind fun left =>
        (parseTokens [Token.cond "CHR>3"]).bind fun right =>
          Except.ok (.or left right) := by
  refine ⟨by decide, ?_⟩
  have h := c9_parse_phase_order.1
    [Token.cond "CHR>1", .or, .cond "CHR>2", .or, .cond "CHR>3"] 3
    (by decide) (fun j hj => by
      have hlt := isOuterTok_lt_length hj
      simp at hlt
      interval_cases j <;> first | omega | exact absurd hj (by decide))
  exact h

/-- Association-list model of the `HashMap` catalogues: first-match lookup. -/
def alistLookup {α : Type} (m : List (Int × α)) (k : Int) : Option α :=
  (m.find? (fun p => p.1 == k)).map (fun p => p.2)

/-- Event effect record (src/src/config/event.rs); unset fields are 0. -/
structure EventEffect where
  chr : Int := 0
  int : Int := 0
  str_ : Int := 0
  mny : Int := 0
  spr : Int := 0
  lif : Int := 0
  age : Int := 0
  rdm : Int := 0
  deriving Repr, DecidableEq

/-- Event branch entry. -/
structure EventBranch where
  condition : String
  event_id : Int
  deriving Repr, DecidableEq

/-- Event configuration.  The Rust field `include` is named `include_` here
because `include` is reserved in Lean. -/
structure EventConfig where
  id : Int
  event : String
  grade : Int := 0
  no_random : Bool := false
  include_ : Option String := none
  exclude : Option String := none
  effect : Option EventEffect := none
  branch : Option (List EventBranch) := none
  post_event : Option String := none
  deriving Repr, DecidableEq

abbrev EventMap := List (Int × EventConfig)

/-- Filtering pass of `select_event` (src/src/event/selector.rs): drop
entries whose event is missing or `no_random`, whose `exclude` evaluates
`true` (parse errors default `false`), or whose `include` evaluates `false`
(parse errors default `true`). -/
def selectFilter (events : EventMap) (s : PropertyState) :
    List (Int × ℚ) → List (Int × ℚ)
  | [] => []
  | (eventId, w) :: rest =>
    match alistLookup events eventId with
    | none => selectFilter events s rest
    | some e =>
      if e.no_random then selectFilter events s rest
      else if (match e.exclude with
        | some ex => checkConditionD false ex s
        | none => false) then selectFilter events s rest
      else if (match e.include_ with
        | some inc => !(checkConditionD true inc s)
        | none => false) then selectFilter events s rest
      else (eventId, w) :: selectFilter events s rest

/-- The draw loop of `select_event` / `weighted_random`: subtract weights
from the drawn value, returning the first id at which it drops to ≤ 0. -/
def weightedScan : ℚ → List (Int × ℚ) → Option Int
  | _, [] => none
  | r, (id, w) :: rest =>
    if r - w ≤ 0 then some id else weightedScan (r - w) rest

/-- `select_event`: filter the pool, fail on empty survivors or
non-positive total weight, then draw with `u * W` where `u ∈ [0,1)` is the
uniform oracle draw; the last survivor is the fallback. -/
def selectEvent (u : ℚ) (eventPool : List (Int × ℚ)) (events : EventMap)
    (s : PropertyState) : Option Int :=
  let available := selectFilter events s eventPool
  let totalWeight : ℚ := (available.map (fun p => p.2)).sum
  if available.isEmpty ∨ totalWeight ≤ 0 then none
  else
    match weightedScan (u * totalWeight) available with
    | some id => some id
    | none => available.getLast?.map (fun p => p.1)

/-- `weighted_random` (src/src/event/selector.rs). -/
def weightedRandom (u : ℚ) (items : List (Int × ℚ)) : Option Int :=
  if items.isEmpty then none
  else
    let totalWeight : ℚ := (items.map (fun p => p.2)).sum
    if totalWeight ≤ 0 then none
    else
      match weightedScan (u * totalWeight) items with
      | some id => some id
      | none => items.getLast?.map (fun p => p.1)

/-- Result of `process_event` (src/src/event/processor.rs). -/
structure EventResult where
  event_id : Int
  description : String
  grade : Int
  effect : Option EventEffect
  next_event_id : Option Int
  post_event : Option String
  deriving Repr, DecidableEq

/-- The branch loop of `process_event`: first branch whose condition holds
(parse errors default `false`). -/
def firstMatchingBranch (s : PropertyState) : List EventBranch → Option EventBranch
  | [] => none
  | b :: bs =>
    if checkConditionD false b.condition s then some b
    else firstMatchingBranch s bs

/-- `process_event`: missing event yields `none`; a matching branch fixes
`next_event_id` and suppresses `post_event`; otherwise `next_event_id` is
unset and the configured `post_event` is kept. -/
def processEvent (eventId : Int) (events : EventMap) (s : PropertyState) :
    Option EventResult :=
  match alistLookup events eventId with
  | none => none
  | some event =>
    match firstMatchingBranch s (event.branch.getD []) with
    | some b =>
      some { event_id := eventId, description := event.event,
             grade := event.grade, effect := event.effect,
             next_event_id := some b.event_id, post_event := none }
    | none =>
      some { event_id := eventId, description := event.event,
             grade := event.grade, effect := event.effect,
             next_event_id := none, post_event := event.post_event }

theorem firstMatchingBranch_eq_find (s : PropertyState) (bs : List EventBranch) :
    firstMatchingBranch s bs =
      bs.find? (fun b => checkConditionD false b.condition s) := by
  induction bs with
  | nil => rfl
  | cons b bs ih =>
    unfold firstMatchingBranch
    rw [List.find?_cons]
    by_cases h : checkConditionD false b.condition s
    · simp [h]
    · simp only [Bool.not_eq_true] at h
      simp [h, ih]

/-- C4: `process_event` resolves branches in listed order: the result's
`next_event_id` is the `event_id` of the first branch whose condition
holds and then `post_event` is suppressed; when no branch matches (or the
branch list is absent) `next_event_id` is unset and `post_event` is the
configured one. -/
theorem c4_branch_first_match (eventId : Int) (events : EventMap)
    (s : PropertyState) (e : EventConfig)
    (hlook : alistLookup events eventId = some e) :
    processEvent eventId events s =
      some { event_id := eventId, description := e.event, grade := e.grade,
             effect := e.effect,
             next_event_id :=
               ((e.branch.getD []).find?
                 (fun b => checkConditionD false b.condition s)).map
                   (fun b => b.event_id),
             post_event :=
               if ((e.branch.getD []).find?
                   (fun b => checkConditionD false b.condition s)).isSome
               then none else e.post_event } := by
  unfold processEvent
  rw [hlook]
  dsimp only
  rw [firstMatchingBranch_eq_find]
  cases hf : (e.branch.getD []).find? (fun b => checkConditionD false b.condition s) with
  | some b => simp
  | none => simp

/-- C4 witness: a concrete event whose second branch is the first to match
(mirrors the repository's own `CHR=12` branch test). -/
theorem c4_branch_first_match_witness :
    processEvent 1
      [(1, { id := 1, event := "e", grade := 0,
             branch := some [⟨"CHR>15", 100⟩, ⟨"CHR>10", 200⟩, ⟨"CHR>5", 300⟩] })]
      (PropertyState.new 12 5 5 5 5 1) =
      some { event_id := 1, description := "e", grade := 0, effect := none,
             next_event_id := some 200, post_event := none } := by
  have h := c4_branch_first_match 1
    [(1, { id := 1, event := "e", grade := 0,
           branch := some [⟨"CHR>15", 100⟩, ⟨"CHR>10", 200⟩, ⟨"CHR>5", 300⟩] })]
    (PropertyState.new 12 5 5 5 5 1)
    { id := 1, event := "e", grade := 0,
      branch := some [⟨"CHR>15", 100⟩, ⟨"CHR>10", 200⟩, ⟨"CHR>5", 300⟩] }
    (by decide)
  rw [h]
  decide

theorem selectFilter_mem (events : EventMap) (s : PropertyState) :
    ∀ (pool : List (Int × ℚ)) (entry : Int × ℚ),
    entry ∈ selectFilter events s pool →
    entry ∈ pool ∧ ∃ e, alistLookup events entry.1 = some e ∧
      e.no_random = false ∧
      (∀ ex, e.exclude = some ex → checkCondition ex s ≠ .ok true) ∧
      (∀ inc, e.include_ = some inc → checkCondition inc s ≠ .ok false) := by
  intro pool
  induction pool with
  | nil => intro entry h; simp [selectFilter] at h
  | cons hd rest ih =>
    intro entry h
    match hd with
    | (eventId, w) =>
      unfold selectFilter at h
      split at h
      · obtain ⟨h1, h2⟩ := ih entry h
        exact ⟨List.mem_cons_of_mem _ h1, h2⟩
      · rename_i e hlk
        split at h
        · obtain ⟨h1, h2⟩ := ih entry h
          exact ⟨List.mem_cons_of_mem _ h1, h2⟩
        · rename_i hnr
          split at h
          · obtain ⟨h1, h2⟩ := ih entry h
            exact ⟨List.mem_cons_of_mem _ h1, h2⟩
          · rename_i hex
            split at h
            · obtain ⟨h1, h2⟩ := ih entry h
              exact ⟨List.mem_cons_of_mem _ h1, h2⟩
            · rename_i hinc
              rcases List.mem_cons.mp h with heq | hmem
              · subst heq
                refine ⟨List.mem_cons_self _ _, e, hlk, by simpa using hnr, ?_, ?_⟩
                · intro ex hexs hok
                  apply hex
                  rw [hexs]
                  show checkConditionD false ex s = true
                  unfold checkConditionD
                  rw [hok]
                · intro inc hincs hok
                  apply hinc
                  rw [hincs]
                  show (!(checkConditionD true inc s)) = true
                  unfold checkConditionD
                  rw [hok]
                  rfl
              · obtain ⟨h1, h2⟩ := ih entry hmem
                exact ⟨List.mem_cons_of_mem _ h1, h2⟩

theorem weightedScan_mem : ∀ (r : ℚ) (l : List (Int × ℚ)) (id : Int),
    weightedScan r l = some id → ∃ w, (id, w) ∈ l := by
  intro r l
  induction l generalizing r with
  | nil => intro id h; simp [weightedScan] at h
  | cons hd rest ih =>
    intro id h
    match hd with
    | (hid, w) =>
      unfold weightedScan at h
      by_cases hle : r - w ≤ 0
      · rw [if_pos hle] at h
        obtain rfl : hid = id := Option.some.inj h
        exact ⟨w, List.mem_cons_self _ _⟩
      · rw [if_neg hle] at h
        obtain ⟨w', hw'⟩ := ih (r - w) id h
        exact ⟨w', List.mem_cons_of_mem _ hw'⟩

theorem getLast?_mem : ∀ (l : List (Int × ℚ)) (a : Int × ℚ),
    l.getLast? = some a → a ∈ l := by
  intro l a h
  cases l with
  | nil => simp at h
  | cons x xs =>
    rw [List.getLast?_eq_getLast _ (by simp)] at h
    exact (Option.some.inj h) ▸ List.getLast_mem (by simp)

/-- C5: `select_event` never returns a `no_random` event, never one whose
`exclude` evaluates `true` or whose `include` evaluates `false`; and it
returns no selection exactly when the surviving (filtered) pool is empty or
the survivors' total weight is ≤ 0. -/
theorem c5_select_event :
    (∀ (u : ℚ) (pool : List (Int × ℚ)) (events : EventMap) (s : PropertyState)
      (id : Int), selectEvent u pool events s = some id →
      ∃ w e, (id, w) ∈ pool ∧ alistLookup events id = some e ∧
        e.no_random = false ∧
        (∀ ex, e.exclude = some ex → checkCondition ex s ≠ .ok true) ∧
        (∀ inc, e.include_ = some inc → checkCondition inc s ≠ .ok false)) ∧
    (∀ (u : ℚ) (pool : List (Int × ℚ)) (events : EventMap) (s : PropertyState),
      selectEvent u pool events s = none ↔
        selectFilter events s pool = [] ∨
          ((selectFilter events s pool).map (fun p => p.2)).sum ≤ 0) := by
  constructor
  · intro u pool events s id h
    unfold selectEvent at h
    by_cases hcond : (selectFilter events s pool).isEmpty = true ∨
        ((selectFilter events s pool).map (fun p => p.2)).sum ≤ 0
    · rw [if_pos hcond] at h
      exact absurd h (by simp)
    · rw [if_neg hcond] at h
      have hmem : ∃ w, (id, w) ∈ selectFilter events s pool := by
        cases hscan : weightedScan
            (u * ((selectFilter events s pool).map (fun p => p.2)).sum)
            (selectFilter events s pool) with
        | some id' =>
          rw [hscan] at h
          obtain rfl : id' = id := Option.some.inj h
          exact weightedScan_mem _ _ _ hscan
        | none =>
          rw [hscan] at h
          cases hlast : (selectFilter events s pool).getLast? with
          | none => rw [hlast] at h; exact absurd h (by simp)
          | some pr =>
            rw [hlast] at h
            simp only [Option.map_some] at h
            obtain rfl : pr.1 = id := Option.some.inj h
            exact ⟨pr.2, getLast?_mem _ _ hlast⟩
      obtain ⟨w, hw⟩ := hmem
      obtain ⟨hpool, e, he⟩ := selectFilter_mem events s pool (id, w) hw
      exact ⟨w, e, hpool, he⟩
  · intro u pool events s
    unfold selectEvent
    by_cases hcond : (selectFilter events s pool).isEmpty = true ∨
        ((selectFilter events s pool).map (fun p => p.2)).sum ≤ 0
    · rw [if_pos hcond]
      simpa [List.isEmpty_iff] using hcond
    · rw [if_neg hcond]
      have hne : selectFilter events s pool ≠ [] := by
        intro hnil
        exact hcond (Or.inl (by simp [hnil]))
      constructor
      · intro h
        exfalso
        cases hscan : weightedScan
            (u * ((selectFilter events s pool).map (fun p => p.2)).sum)
            (selectFilter events s pool) with
        | some id' => rw [hscan] at h; exact Option.noConfusion h
        | none =>
          rw [hscan] at h
          cases hlast : (selectFilter events s pool).getLast? with
          | none => exact hne (List.getLast?_eq_none_iff.mp hlast)
          | some pr => rw [hlast] at h; exact Option.noConfusion h
      · intro h
        exact absurd h (by simpa [List.isEmpty_iff] using hcond)

/-- C5 witness: a single-entry pool with a trivial event is selected; the
selection satisfies the filter guarantees. -/
theorem c5_select_event_witness :
    selectEvent 0 [((1 : Int), (1 : ℚ))] [((1 : Int), ({ id := 1, event := "x" } : EventConfig))]
      (PropertyState.new 5 5 5 5 5 1) = some 1 ∧
    ∃ w e, ((1 : Int), w) ∈ [((1 : Int), (1 : ℚ))] ∧
      alistLookup [((1 : Int), ({ id := 1, event := "x" } : EventConfig))] 1 = some e ∧
      e.no_random = false ∧
      (∀ ex, e.exclude = some ex →
        checkCondition ex (PropertyState.new 5 5 5 5 5 1) ≠ .ok true) ∧
      (∀ inc, e.include_ = some inc →
        checkCondition inc (PropertyState.new 5 5 5 5 5 1) ≠ .ok false) := by
  refine ⟨by simp [selectEvent, selectFilter, alistLookup, weightedScan], ?_⟩
  exact c5_select_event.1 0 [((1 : Int), (1 : ℚ))]
    [((1 : Int), ({ id := 1, event := "x" } : EventConfig))] (PropertyState.new 5 5 5 5 5 1) 1
    (by simp [selectEvent, selectFilter, alistLookup, weightedScan])

/-- Talent effect record (src/src/config/talent.rs); unset fields are 0. -/
structure TalentEffect where
  chr : Int := 0
  int : Int := 0
  str_ : Int := 0
  mny : Int := 0
  spr : Int := 0
  lif : Int := 0
  age : Int := 0
  rdm : Int := 0
  deriving Repr, DecidableEq

/-- Talent replacement rules: weight maps keyed by grade-as-string or
talent-id-as-string. -/
structure TalentReplacement where
  grade : Option (List (String × ℚ)) := none
  talent : Option (List (String × ℚ)) := none
  deriving Repr, DecidableEq

/-- Talent configuration (src/src/config/talent.rs). -/
structure TalentConfig where
  id : Int
  name : String := ""
  description : String := ""
  grade : Int := 0
  max_triggers : Int := 1
  condition : Option String := none
  effect : Option TalentEffect := none
  exclusive : Bool := false
  exclude : Option (List Int) := none
  replacement : Option TalentReplacement := none
  status : Int := 0
  deriving Repr, DecidableEq

abbrev TalentMap := List (Int × TalentConfig)

/-- Result of one talent trigger (src/src/talent/processor.rs). -/
structure TalentTriggerResult where
  talent_id : Int
  name : String
  description : String
  grade : Int
  effect : Option TalentEffect
  deriving Repr, DecidableEq

/-- The per-run trigger counter: `HashMap<i32,i32>` with `get(..).unwrap_or(0)`
modelled as a total function defaulting to 0. -/
abbrev TriggerCounts := Int → Int

/-- The `*trigger_counts.entry(id).or_insert(0) += 1` update. -/
def bumpCount (counts : TriggerCounts) (id : Int) : TriggerCounts :=
  fun t => if t = id then counts id + 1 else counts t

/-- Loop of `process_talents` over the talent-id list: skip missing talents,
skip when the count has reached `max_triggers`, skip when the condition is
set and evaluates `false` (parse errors default `false`), otherwise bump the
count and emit a trigger result. -/
def processTalentsGo (s : PropertyState) (talents : TalentMap) :
    List Int → TriggerCounts → List TalentTriggerResult × TriggerCounts
  | [], counts => ([], counts)
  | id :: rest, counts =>
    match alistLookup talents id with
    | none => processTalentsGo s talents rest counts
    | some talent =>
      if counts id ≥ talent.max_triggers then processTalentsGo s talents rest counts
      else if (match talent.condition with
          | some c => !(checkConditionD false c s)
          | none => false) then processTalentsGo s talents rest counts
      else
        let r := processTalentsGo s talents rest (bumpCount counts id)
        ({ talent_id := id, name := talent.name,
           description := talent.description, grade := talent.grade,
           effect := talent.effect } :: r.1, r.2)

/-- `process_talents`: iterate `state.tlt` in insertion order. -/
def processTalents (s : PropertyState) (talents : TalentMap)
    (counts : TriggerCounts) : List TalentTriggerResult × TriggerCounts :=
  processTalentsGo s talents s.tlt counts

theorem processTalentsGo_count (s : PropertyState) (talents : TalentMap) :
    ∀ (ids : List Int) (counts : TriggerCounts) (t : Int),
    (processTalentsGo s talents ids counts).2 t =
      counts t + (((processTalentsGo s talents ids counts).1.filter
        (fun r => r.talent_id == t)).length : Int) := by
  intro ids
  induction ids with
  | nil => intro counts t; simp [processTalentsGo]
  | cons id rest ih =>
    intro counts t
    unfold processTalentsGo
    cases hlk : alistLookup talents id with
    | none => simpa using ih counts t
    | some talent =>
      dsimp only
      by_cases hmax : counts id ≥ talent.max_triggers
      · rw [if_pos hmax]
        exact ih counts t
      · rw [if_neg hmax]
        by_cases hcond : (match talent.condition with
            | some c => !(checkConditionD false c s)
            | none => false) = true
        · rw [if_pos hcond]
          exact ih counts t
        · rw [if_neg hcond]
          dsimp only
          by_cases ht : t = id
          · subst ht
            rw [ih (bumpCount counts t) t]
            simp [bumpCount, List.filter]
            omega
          · rw [ih (bumpCount counts id) t]
            have hne : ¬ ((id == t) = true) := by
              simp
              intro hh
              exact ht hh.symm
            simp [bumpCount, List.filter, if_neg ht, hne]

theorem processTalentsGo_skip (s : PropertyState) (talents : TalentMap) :
    ∀ (ids : List Int) (counts : TriggerCounts) (t : Int) (cfg : TalentConfig),
    alistLookup talents t = some cfg → counts t ≥ cfg.max_triggers →
    ((processTalentsGo s talents ids counts).1.filter
      (fun r => r.talent_id == t)) = [] ∧
    (processTalentsGo s talents ids counts).2 t = counts t := by
  intro ids
  induction ids with
  | nil => intro counts t cfg _ _; simp [processTalentsGo]
  | cons id rest ih =>
    intro counts t cfg hcfg hge
    unfold processTalentsGo
    cases hlk : alistLookup talents id with
    | none => exact ih counts t cfg hcfg hge
    | some talent =>
      dsimp only
      by_cases hmax : counts id ≥ talent.max_triggers
      · rw [if_pos hmax]
        exact ih counts t cfg hcfg hge
      · rw [if_neg hmax]
        by_cases hcond : (match talent.condition with
            | some c => !(checkConditionD false c s)
            | none => false) = true
        · rw [if_pos hcond]
          exact ih counts t cfg hcfg hge
        · rw [if_neg hcond]
          dsimp only
          have htne : t ≠ id := by
            intro hh
            rw [hh] at hcfg hge
            rw [hcfg] at hlk
            have hr : cfg = talent := Option.some.inj hlk
            rw [← hr] at hmax
            exact hmax hge
          have hb : bumpCount counts id t = counts t := by
            simp [bumpCount, if_neg htne]
          obtain ⟨ih1, ih2⟩ := ih (bumpCount counts id) t cfg hcfg (by rw [hb]; exact hge)
          constructor
          · rw [List.filter_cons]
            have : ¬ ((id == t) = true) := by
              simp
              intro hh
              exact htne hh.symm
            simp only [this]
            simpa using ih1
          · rw [ih2, hb]

theorem processTalentsGo_inv (s : PropertyState) (talents : TalentMap) :
    ∀ (ids : List Int) (counts : TriggerCounts),
    (∀ t cfg, alistLookup talents t = some cfg → counts t ≤ cfg.max_triggers) →
    (∀ t cfg, alistLookup talents t = some cfg →
      (processTalentsGo s talents ids counts).2 t ≤ cfg.max_triggers) := by
  intro ids
  induction ids with
  | nil => intro counts hinv t cfg hcfg; simpa [processTalentsGo] using hinv t cfg hcfg
  | cons id rest ih =>
    intro counts hinv t cfg hcfg
    unfold processTalentsGo
    cases hlk : alistLookup talents id with
    | none => exact ih counts hinv t cfg hcfg
    | some talent =>
      dsimp only
      by_cases hmax : counts id ≥ talent.max_triggers
      · rw [if_pos hmax]
        exact ih counts hinv t cfg hcfg
      · rw [if_neg hmax]
        by_cases hcond : (match talent.condition with
            | some c => !(checkConditionD false c s)
            | none => false) = true
        · rw [if_pos hcond]
          exact ih counts hinv t cfg hcfg
        · rw [if_neg hcond]
          dsimp only
          apply ih (bumpCount counts id) ?_ t cfg hcfg
          intro t' cfg' hcfg'
          unfold bumpCount
          by_cases ht' : t' = id
          · subst ht'
            rw [if_pos rfl]
            rw [hcfg'] at hlk
            have hr : cfg' = talent := Option.some.inj hlk
            rw [hr]
            omega
          · rw [if_neg ht']
            exact hinv t' cfg' hcfg'

/-- C6: across a `process_talents` pass the per-talent trigger counter stays
within `max_triggers`: the invariant `counts[t] ≤ t.max_triggers` is
preserved; a talent whose count has reached its limit is skipped (no result
is emitted for it and its count is unchanged); and each emitted trigger
increments its talent's count by exactly 1 (the final count is the initial
count plus the number of emitted triggers). -/
theorem c6_trigger_limit (s : PropertyState) (talents : TalentMap)
    (counts : TriggerCounts) :
    ((∀ t cfg, alistLookup talents t = some cfg → counts t ≤ cfg.max_triggers) →
      ∀ t cfg, alistLookup talents t = some cfg →
        (processTalents s talents counts).2 t ≤ cfg.max_triggers) ∧
    (∀ t cfg, alistLookup talents t = some cfg → counts t ≥ cfg.max_triggers →
      (processTalents s talents counts).1.filter
        (fun r => r.talent_id == t) = [] ∧
      (processTalents s talents counts).2 t = counts t) ∧
    (∀ t, (processTalents s talents counts).2 t =
      counts t + ((processTalents s talents counts).1.filter
        (fun r => r.talent_id == t)).length) :=
  ⟨fun hinv => processTalentsGo_inv s talents s.tlt counts hinv,
   fun t cfg hcfg hge => processTalentsGo_skip s talents s.tlt counts t cfg hcfg hge,
   fun t => processTalentsGo_count s talents s.tlt counts t⟩

theorem alistLookup_singleton {α : Type} (k : Int) (v : α) (t : Int) (cfg : α)
    (h : alistLookup [(k, v)] t = some cfg) : cfg = v ∧ t = k := by
  unfold alistLookup at h
  by_cases hb : (k == t) = true
  · have hk : k = t := by simpa using hb
    rw [List.find?_cons_of_pos _ (by simpa using hb)] at h
    simp at h
    exact ⟨h.symm, hk.symm⟩
  · rw [List.find?_cons_of_neg _ (by simpa using hb)] at h
    simp at h

/-- C6 witness: a one-talent catalogue with `max_triggers = 1` and the
talent listed twice in `tlt`; after the pass the counter still respects the
limit. -/
theorem c6_trigger_limit_witness :
    (processTalents { PropertyState.new 5 5 5 5 5 1 with tlt := [1, 1] }
      [((1 : Int), ({ id := 1 } : TalentConfig))] (fun _ => 0)).2 1 ≤ 1 := by
  refine (c6_trigger_limit { PropertyState.new 5 5 5 5 5 1 with tlt := [1, 1] }
    [((1 : Int), ({ id := 1 } : TalentConfig))] (fun _ => 0)).1 ?_ 1
    ({ id := 1 } : TalentConfig) (by decide)
  intro t cfg hcfg
  obtain ⟨rfl, rfl⟩ := alistLookup_singleton 1 ({ id := 1 } : TalentConfig) t cfg hcfg
  decide

/-- Loop of `check_exclusion` over the present set: first check whether the
present talent appears in the candidate's exclude list, then (bidirectional)
whether the candidate appears in the present talent's exclude list. -/
def checkExclusionLoop (excludeTalent : TalentConfig) (excludeId : Int)
    (cfgs : TalentMap) : List Int → Option Int
  | [] => none
  | t :: ts =>
    if t ∈ excludeTalent.exclude.getD [] then some t
    else
      match alistLookup cfgs t with
      | some tc =>
        if excludeId ∈ tc.exclude.getD [] then some t
        else checkExclusionLoop excludeTalent excludeId cfgs ts
      | none => checkExclusionLoop excludeTalent excludeId cfgs ts

/-- `check_exclusion` (src/src/talent/replacer.rs): a candidate missing from
the catalogue short-circuits to `None` via the `?` operator. -/
def check_exclusion (talents : List Int) (excludeId : Int) (cfgs : TalentMap) :
    Option Int :=
  match alistLookup cfgs excludeId with
  | none => none
  | some excludeTalent => checkExclusionLoop excludeTalent excludeId cfgs talents

/-- Exclude list of a talent id, empty when the talent (or its list) is
absent. -/
def excludeListOf (cfgs : TalentMap) (i : Int) : List Int :=
  ((alistLookup cfgs i).bind (fun c => c.exclude)).getD []

theorem checkExclusionLoop_eq_find (cc : TalentConfig) (c : Int)
    (cfgs : TalentMap) (hc : alistLookup cfgs c = some cc) :
    ∀ talents : List Int,
    checkExclusionLoop cc c cfgs talents =
      talents.find? (fun t => decide (t ∈ excludeListOf cfgs c) ||
        decide (c ∈ excludeListOf cfgs t)) := by
  intro talents
  induction talents with
  | nil => rfl
  | cons t ts ih =>
    unfold checkExclusionLoop
    rw [List.find?_cons]
    have hex : excludeListOf cfgs c = cc.exclude.getD [] := by
      unfold excludeListOf
      rw [hc]
      simp [Option.bind]
    by_cases h1 : t ∈ cc.exclude.getD []
    · rw [if_pos h1]
      have : (decide (t ∈ excludeListOf cfgs c) ||
          decide (c ∈ excludeListOf cfgs t)) = true := by
        rw [hex]
        simp [h1]
      rw [this]
    · rw [if_neg h1]
      cases hlk : alistLookup cfgs t with
      | none =>
        dsimp only
        have : (decide (t ∈ excludeListOf cfgs c) ||
            decide (c ∈ excludeListOf cfgs t)) = false := by
          rw [hex]
          simp [h1]
          unfold excludeListOf
          rw [hlk]
          simp
        rw [this]
        exact ih
      | some tc =>
        dsimp only
        have hex2 : excludeListOf cfgs t = tc.exclude.getD [] := by
          unfold excludeListOf
          rw [hlk]
          simp [Option.bind]
        by_cases h2 : c ∈ tc.exclude.getD []
        · rw [if_pos h2]
          have : (decide (t ∈ excludeListOf cfgs c) ||
              decide (c ∈ excludeListOf cfgs t)) = true := by
            rw [hex2]
            simp [h2]
          rw [this]
        · rw [if_neg h2]
          have : (decide (t ∈ excludeListOf cfgs c) ||
              decide (c ∈ excludeListOf cfgs t)) = false := by
            rw [hex, hex2]
            simp [h1, h2]
          rw [this]
          exact ih

/-- C7 (amended): when the candidate `c` is present in the catalogue,
`check_exclusion` returns the first `s` of the scanned set that conflicts
bidirectionally (`s ∈ exclude(c)` or `c ∈ exclude(s)`), and it returns some
conflict iff one exists; when `c` is absent from the catalogue it returns
`None` unconditionally. -/
theorem c7_exclusion_bidirectional (talents : List Int) (c : Int)
    (cfgs : TalentMap) (cc : TalentConfig)
    (hc : alistLookup cfgs c = some cc) :
    check_exclusion talents c cfgs =
      talents.find? (fun t => decide (t ∈ excludeListOf cfgs c) ||
        decide (c ∈ excludeListOf cfgs t)) ∧
    ((check_exclusion talents c cfgs).isSome ↔
      ∃ t ∈ talents, c ∈ excludeListOf cfgs t ∨ t ∈ excludeListOf cfgs c) := by
  have heq : check_exclusion talents c cfgs =
      talents.find? (fun t => decide (t ∈ excludeListOf cfgs c) ||
        decide (c ∈ excludeListOf cfgs t)) := by
    unfold check_exclusion
    rw [hc]
    exact checkExclusionLoop_eq_find cc c cfgs hc talents
  refine ⟨heq, ?_⟩
  rw [heq, List.find?_isSome]
  constructor
  · rintro ⟨t, ht, hp⟩
    simp only [Bool.or_eq_true, decide_eq_true_eq] at hp
    exact ⟨t, ht, hp.symm⟩
  · rintro ⟨t, ht, hp⟩
    refine ⟨t, ht, ?_⟩
    simp only [Bool.or_eq_true, decide_eq_true_eq]
    exact hp.symm

/-- C7 (counterexample): talent 1 excludes candidate 2, but 2 is absent from
the catalogue, so `check_exclusion` returns `None` even though a conflict
`c ∈ exclude(s)` exists — the claimed equivalence fails for candidates
missing from the catalogue. -/
theorem c7_exclusion_counterexample :
    check_exclusion [1] 2
      [((1 : Int), ({ id := 1, exclude := some [2] } : TalentConfig))] = none ∧
    (∃ t ∈ [(1 : Int)],
      (2 : Int) ∈ excludeListOf
        [((1 : Int), ({ id := 1, exclude := some [2] } : TalentConfig))] t ∨
      t ∈ excludeListOf
        [((1 : Int), ({ id := 1, exclude := some [2] } : TalentConfig))] 2) := by
  constructor
  · rfl
  · exact ⟨1, by decide, Or.inl (by decide)⟩

/-- C7 witness: the amended theorem at the repository's own bidirectional
test catalogue (`A` excludes `B`, `B` excludes nothing): checking `B`
against `{A}` and `A` against `{B}` both report a conflict. -/
theorem c7_exclusion_bidirectional_witness :
    check_exclusion [2] 1
      [((1 : Int), ({ id := 1, exclude := some [2] } : TalentConfig)),
       ((2 : Int), ({ id := 2 } : TalentConfig))] =
      List.find? (fun t => decide (t ∈ excludeListOf
        [((1 : Int), ({ id := 1, exclude := some [2] } : TalentConfig)),
         ((2 : Int), ({ id := 2 } : TalentConfig))] 1) ||
        decide ((1 : Int) ∈ excludeListOf
          [((1 : Int), ({ id := 1, exclude := some [2] } : TalentConfig)),
           ((2 : Int), ({ id := 2 } : TalentConfig))] t)) [2] ∧
    ((check_exclusion [2] 1
      [((1 : Int), ({ id := 1, exclude := some [2] } : TalentConfig)),
       ((2 : Int), ({ id := 2 } : TalentConfig))]).isSome ↔
      ∃ t ∈ [(2 : Int)],
        (1 : Int) ∈ excludeListOf
          [((1 : Int), ({ id := 1, exclude := some [2] } : TalentConfig)),
           ((2 : Int), ({ id := 2 } : TalentConfig))] t ∨
        t ∈ excludeListOf
          [((1 : Int), ({ id := 1, exclude := some [2] } : TalentConfig)),
           ((2 : Int), ({ id := 2 } : TalentConfig))] 1) :=
  c7_exclusion_bidirectional [2] 1
    [((1 : Int), ({ id := 1, exclude := some [2] } : TalentConfig)),
     ((2 : Int), ({ id := 2 } : TalentConfig))]
    ({ id := 1, exclude := some [2] } : TalentConfig) (by decide)

/-- Association-list lookup for `String`-keyed maps. -/
def alistLookupStr {α : Type} (m : List (String × α)) (k : String) : Option α :=
  (m.find? (fun p => p.1 == k)).map (fun p => p.2)

/-- Achievement opportunity (src/src/config/achievement.rs). -/
inductive Opportunity where
  | start
  | trajectory
  | summary
  deriving Repr, DecidableEq

/-- `Opportunity::from_str`: case-insensitive match; unknown strings yield
`none`.  Uppercasing is modelled per character. -/
def Opportunity.fromString (s : String) : Option Opportunity :=
  match (s.toList.map Char.toUpper).asString with
  | "START" => some .start
  | "TRAJECTORY" => some .trajectory
  | "SUMMARY" => some .summary
  | _ => none

/-- Achievement configuration. -/
structure AchievementConfig where
  id : Int
  name : String := ""
  description : String := ""
  grade : Int := 0
  opportunity : String
  condition : String
  deriving Repr, DecidableEq

abbrev AchMap := List (Int × AchievementConfig)

/-- Achievement info record (src/src/achievement/checker.rs). -/
structure AchievementInfo where
  id : Int
  name : String
  description : String
  grade : Int
  deriving Repr, DecidableEq

/-- `is_achieved`: membership in any group of the achieved list. -/
def isAchieved (achievementId : Int) (achieved : List (List Int)) : Bool :=
  achieved.any (fun group => group.contains achievementId)

/-- `unlock_achievement`: append to the first group, or open one. -/
def unlockAchievement (achievementId : Int) (achieved : List (List Int)) :
    List (List Int) :=
  match achieved with
  | [] => [[achievementId]]
  | g :: gs => (g ++ [achievementId]) :: gs

/-- Loop of `check_achievements` over the catalogue values: skip a
mismatched opportunity, an already-achieved id, or a condition that does not
evaluate `true` (parse errors default `false`). -/
def checkAchievementsGo (opportunity : Opportunity) (s : PropertyState)
    (achieved : List (List Int)) : List AchievementConfig → List AchievementInfo
  | [] => []
  | a :: rest =>
    if Opportunity.fromString a.opportunity ≠ some opportunity then
      checkAchievementsGo opportunity s achieved rest
    else if isAchieved a.id achieved then
      checkAchievementsGo opportunity s achieved rest
    else if checkConditionD false a.condition s then
      { id := a.id, name := a.name, description := a.description,
        grade := a.grade } :: checkAchievementsGo opportunity s achieved rest
    else checkAchievementsGo opportunity s achieved rest

/-- `check_achievements`: iterate the catalogue's values. -/
def checkAchievements (opportunity : Opportunity) (s : PropertyState)
    (achieved : List (List Int)) (achievements : AchMap) : List AchievementInfo :=
  checkAchievementsGo opportunity s achieved (achievements.map (fun p => p.2))

/-- Age configuration (src/src/config/age.rs). -/
structure AgeConfig where
  age : Int
  talents : Option (List Int) := none
  events : Option (List (Int × ℚ)) := none
  deriving Repr

abbrev AgeMap := List (Int × AgeConfig)

/-- Judge level (src/src/config/judge.rs). -/
structure JudgeLevel where
  min : Int
  grade : Int
  text : String
  deriving Repr, DecidableEq

/-- Replacement record (src/src/talent/replacer.rs). -/
structure ReplacementResult where
  source_id : Int
  source_name : String
  target_id : Int
  target_name : String
  deriving Repr, DecidableEq

/-- Uniform-draw oracle stream (each entry stands for one `rng.gen::<f64>()`
in `[0,1)`). -/
abbrev UStream := Nat → ℚ

/-- Oracle stream of `RDM` target picks (each entry stands for one
`RDM_PROPERTIES.choose`). -/
abbrev PickStream := Nat → Fin 5

/-- Consume the head of an oracle stream. -/
def shift {α : Type} (f : Nat → α) : Nat → α := fun n => f (n + 1)

/-- Stream-threaded wrapper of `PropertyState::change`: only the `RDM` arm
draws from the pick stream. -/
def changeS (ps : PickStream) (s : PropertyState) (prop : String) (delta : Int) :
    PropertyState × PickStream :=
  if prop = "RDM" then (s.change (ps 0) prop delta, shift ps)
  else (s.change (ps 0) prop delta, ps)

/-- `apply_talent_effect`: direct field updates guarded by non-zero deltas,
refreshing extrema inline (`lif` has none); `rdm` delegates to
`change("RDM", ..)`. -/
def applyTalentEffect (ps : PickStream) (s : PropertyState)
    (effect : TalentEffect) : PropertyState × PickStream :=
  let s := if effect.chr ≠ 0 then
    { s with chr := s.chr + effect.chr, lchr := min s.lchr (s.chr + effect.chr),
             hchr := max s.hchr (s.chr + effect.chr) } else s
  let s := if effect.int ≠ 0 then
    { s with int := s.int + effect.int, lint := min s.lint (s.int + effect.int),
             hint := max s.hint (s.int + effect.int) } else s
  let s := if effect.str_ ≠ 0 then
    { s with str_ := s.str_ + effect.str_, lstr := min s.lstr (s.str_ + effect.str_),
             hstr := max s.hstr (s.str_ + effect.str_) } else s
  let s := if effect.mny ≠ 0 then
    { s with mny := s.mny + effect.mny, lmny := min s.lmny (s.mny + effect.mny),
             hmny := max s.hmny (s.mny + effect.mny) } else s
  let s := if effect.spr ≠ 0 then
    { s with spr := s.spr + effect.spr, lspr := min s.lspr (s.spr + effect.spr),
             hspr := max s.hspr (s.spr + effect.spr) } else s
  let s := if effect.lif ≠ 0 then { s with lif := s.lif + effect.lif } else s
  let s := if effect.age ≠ 0 then
    { s with age := s.age + effect.age, lage := min s.lage (s.age + effect.age),
             hage := max s.hage (s.age + effect.age) } else s
  if effect.rdm ≠ 0 then changeS ps s "RDM" effect.rdm else (s, ps)

/-- `apply_event_effect` (bottom of src/src/simulator/engine.rs): each
non-zero field goes through `PropertyState::change`. -/
def applyEventEffect (ps : PickStream) (s : PropertyState)
    (effect : EventEffect) : PropertyState × PickStream :=
  let r := if effect.chr ≠ 0 then changeS ps s "CHR" effect.chr else (s, ps)
  let r := if effect.int ≠ 0 then changeS r.2 r.1 "INT" effect.int else r
  let r := if effect.str_ ≠ 0 then changeS r.2 r.1 "STR" effect.str_ else r
  let r := if effect.mny ≠ 0 then changeS r.2 r.1 "MNY" effect.mny else r
  let r := if effect.spr ≠ 0 then changeS r.2 r.1 "SPR" effect.spr else r
  let r := if effect.lif ≠ 0 then changeS r.2 r.1 "LIF" effect.lif else r
  let r := if effect.age ≠ 0 then changeS r.2 r.1 "AGE" effect.age else r
  if effect.rdm ≠ 0 then changeS r.2 r.1 "RDM" effect.rdm else r

/-- `replace_talent`: recursive weighted replacement.  The source recursion
is unbounded in depth (driven by configuration); the fuel argument cuts it
off, returning the current id, and is irrelevant on configurations whose
replacement chains are shorter than the fuel. -/
def replaceTalent (cfgs : TalentMap) : Nat → UStream → Int → List Int → Int × UStream
  | 0, us, talentId, _ => (talentId, us)
  | fuel + 1, us, talentId, existing =>
    match alistLookup cfgs talentId with
    | none => (talentId, us)
    | some talent =>
      match talent.replacement with
      | none => (talentId, us)
      | some replacement =>
        let gradeList : List (Int × ℚ) :=
          match replacement.grade with
          | some gradeMap =>
            (cfgs.map (fun p => p.2)).filterMap (fun t =>
              if t.exclusive then none
              else
                match alistLookupStr gradeMap (toString t.grade) with
                | some weight =>
                  if (check_exclusion existing t.id cfgs).isNone then
                    some (t.id, weight)
                  else none
                | none => none)
          | none => []
        let talentList : List (Int × ℚ) :=
          match replacement.talent with
          | some talentMap =>
            talentMap.filterMap (fun p =>
              match parseIntRust p.1 with
              | some tid =>
                if (check_exclusion existing tid cfgs).isNone then some (tid, p.2)
                else none
              | none => none)
          | none => []
        let replaceList := gradeList ++ talentList
        if replaceList.isEmpty then (talentId, us)
        else
          let replacedId := (weightedRandom (us 0) replaceList).getD talentId
          replaceTalent cfgs fuel (shift us) replacedId (existing ++ [replacedId])

/-- Loop of `apply_replacements` over the input ids with their index. -/
def applyReplacementsGo (cfgs : TalentMap) (fuel : Nat) :
    List Int → Nat → List Int → List ReplacementResult → UStream →
    List Int × List ReplacementResult × UStream
  | [], _, newTalents, replacements, us => (newTalents, replacements, us)
  | talentId :: rest, i, newTalents, replacements, us =>
    let r := replaceTalent cfgs fuel us talentId newTalents
    if r.1 ≠ talentId then
      let replacements :=
        match alistLookup cfgs talentId, alistLookup cfgs r.1 with
        | some source, some target =>
          let rec_ : ReplacementResult :=
            { source_id := talentId, source_name := source.name,
              target_id := r.1, target_name := target.name }
          replacements ++ [rec_]
        | _, _ => replacements
      applyReplacementsGo cfgs fuel rest (i + 1)
        ((newTalents.set i r.1) ++ [r.1]) replacements r.2
    else applyReplacementsGo cfgs fuel rest (i + 1) newTalents replacements r.2

/-- `apply_replacements`: run the loop, then truncate the accumulator back
to the input length. -/
def applyReplacements (cfgs : TalentMap) (fuel : Nat) (us : UStream)
    (talentIds : List Int) : List Int × List ReplacementResult × UStream :=
  let r := applyReplacementsGo cfgs fuel talentIds 0 talentIds [] us
  (r.1.take talentIds.length, r.2.1, r.2.2)

/-- Year content entry (src/src/simulator/engine.rs). -/
structure YearContent where
  content_type : String
  description : String
  grade : Int
  name : Option String
  deriving Repr, DecidableEq

/-- Trajectory entry; the `HashMap` of properties is the fixed six-key
dictionary of `get_properties_dict`, in insertion order. -/
structure TrajectoryEntry where
  age : Int
  content : List YearContent
  is_end : Bool
  properties : List (String × Int)
  deriving Repr, DecidableEq

/-- Property judge; `progress` (an `f64` in the source) is an exact
rational. -/
structure PropertyJudge where
  property_type : String
  value : Int
  grade : Int
  text : String
  progress : ℚ
  deriving Repr, DecidableEq

/-- Talent info in the summary. -/
structure TalentInfo where
  id : Int
  name : String
  description : String
  grade : Int
  deriving Repr, DecidableEq

/-- Summary block of the result. -/
structure SummaryResult where
  total_score : Int
  judges : List PropertyJudge
  talents : List TalentInfo
  deriving Repr, DecidableEq

/-- Complete simulation result. -/
structure SimulationResult where
  trajectory : List TrajectoryEntry
  summary : SummaryResult
  new_achievements : List AchievementInfo
  triggered_events : List Int
  replacements : List ReplacementResult
  deriving Repr, DecidableEq

/-- The engine's immutable catalogues. -/
structure SimulationEngine where
  talents : TalentMap
  events : EventMap
  ages : AgeMap
  achievements : AchMap
  judge_config : List (String × List JudgeLevel)

/-- `get_properties_dict`. -/
def getPropertiesDict (s : PropertyState) : List (String × Int) :=
  [("AGE", s.age), ("CHR", s.chr), ("INT", s.int),
   ("STR", s.str_), ("MNY", s.mny), ("SPR", s.spr)]

/-- `judge_property`: first level (in stored order) whose `min ≤ value`;
`progress = clamp(value, 0, 10) / 10`. -/
def judgeProperty (eng : SimulationEngine) (prop : String) (value : Int) :
    Option PropertyJudge :=
  match alistLookupStr eng.judge_config prop with
  | none => none
  | some levels =>
    match levels.find? (fun level => decide (value ≥ level.min)) with
    | some level =>
      some { property_type := prop, value := value, grade := level.grade,
             text := level.text,
             progress := ((max (min value 10) 0 : Int) : ℚ) / 10 }
    | none => none

/-- `get_summary_judges`: the six historical maxima plus `SUM`. -/
def getSummaryJudges (eng : SimulationEngine) (s : PropertyState) :
    List PropertyJudge :=
  let props : List (String × Int) :=
    [("HCHR", max s.hchr s.chr), ("HINT", max s.hint s.int),
     ("HSTR", max s.hstr s.str_), ("HMNY", max s.hmny s.mny),
     ("HSPR", max s.hspr s.spr), ("HAGE", max s.hage s.age)]
  let judges := props.filterMap (fun p => judgeProperty eng p.1 p.2)
  match judgeProperty eng "SUM" s.calculate_summary_score with
  | some judge => judges ++ [judge]
  | none => judges

/-- `do_talents`: run the triggering pass, then push content and apply each
effect in emission order. -/
def doTalents (eng : SimulationEngine) (ps : PickStream) (s : PropertyState)
    (counts : TriggerCounts) :
    List YearContent × PropertyState × TriggerCounts × PickStream :=
  let r := processTalents s eng.talents counts
  let step := r.1.foldl
    (fun (acc : List YearContent × PropertyState × PickStream) result =>
      let yc : YearContent :=
        { content_type := "TLT", description := result.description,
          grade := result.grade, name := some result.name }
      let content := acc.1 ++ [yc]
      match result.effect with
      | some eff =>
        let ae := applyTalentEffect acc.2.2 acc.2.1 eff
        (content, ae.1, ae.2)
      | none => (content, acc.2.1, acc.2.2))
    ([], s, ps)
  (step.1, step.2.1, r.2, step.2.2)

/-- `process_event_chain`: resolve an event, record it into `evt` if absent,
concatenate `post_event` into the description when present, apply the
effect, and follow `next_event_id`.  The source recursion has NO depth
bound; the fuel argument is an artificial cut-off (fuel-out returns the
state and content accumulated so far), needed because the source loops
forever on cyclic branch configurations. -/
def processEventChain (eng : SimulationEngine) :
    Nat → PickStream → PropertyState → Int → List YearContent →
    PropertyState × List YearContent × PickStream
  | 0, ps, s, _, content => (s, content, ps)
  | fuel + 1, ps, s, eventId, content =>
    match processEvent eventId eng.events s with
    | none => (s, content, ps)
    | some result =>
      let s := if eventId ∈ s.evt then s else { s with evt := s.evt ++ [eventId] }
      let description :=
        match result.post_event with
        | some post => result.description ++ post
        | none => result.description
      let yc : YearContent :=
        { content_type := "EVT", description := description,
          grade := result.grade, name := none }
      let content := content ++ [yc]
      let r :=
        match result.effect with
        | some eff => applyEventEffect ps s eff
        | none => (s, ps)
      match result.next_event_id with
      | some nextId => processEventChain eng fuel r.2 r.1 nextId content
      | none => (r.1, content, r.2)

/-- `do_events`: one weighted selection, then the chain.  The uniform draw
is consumed exactly when the source calls `rng.gen()` — i.e. when the
filtered pool admits a selection. -/
def doEvents (eng : SimulationEngine) (chainFuel : Nat) (us : UStream)
    (ps : PickStream) (s : PropertyState) (eventPool : List (Int × ℚ)) :
    List YearContent × PropertyState × UStream × PickStream :=
  match selectEvent (us 0) eventPool eng.events s with
  | some eventId =>
    let r := processEventChain eng chainFuel ps s eventId []
    (r.2.1, r.1, shift us, r.2.2)
  | none => ([], s, us, ps)

/-- `simulate_year`: advance age, inject age talents (deduplicated), run the
talent pass, draw and chain one event when the age has a pool, snapshot. -/
def simulateYear (eng : SimulationEngine) (chainFuel : Nat) (us : UStream)
    (ps : PickStream) (s : PropertyState) (counts : TriggerCounts) :
    TrajectoryEntry × PropertyState × TriggerCounts × UStream × PickStream :=
  let s := s.change (ps 0) "AGE" 1
  let age := s.age
  match alistLookup eng.ages age with
  | some ageConfig =>
    let s :=
      match ageConfig.talents with
      | some tlts => tlts.foldl
          (fun st tid => if tid ∈ st.tlt then st else { st with tlt := st.tlt ++ [tid] }) s
      | none => s
    let dt := doTalents eng ps s counts
    match ageConfig.events with
    | some pool =>
      let de := doEvents eng chainFuel us dt.2.2.2 dt.2.1 pool
      ({ age := age, content := dt.1 ++ de.1, is_end := de.2.1.isEnd,
         properties := getPropertiesDict de.2.1 },
       de.2.1, dt.2.2.1, de.2.2.1, de.2.2.2)
    | none =>
      ({ age := age, content := dt.1, is_end := dt.2.1.isEnd,
         properties := getPropertiesDict dt.2.1 },
       dt.2.1, dt.2.2.1, us, dt.2.2.2)
  | none =>
    let dt := doTalents eng ps s counts
    ({ age := age, content := dt.1, is_end := dt.2.1.isEnd,
       properties := getPropertiesDict dt.2.1 },
     dt.2.1, dt.2.2.1, us, dt.2.2.2)

/-- The `while !state.is_end()` loop of `simulate`.  The source loop is
unbounded (it runs until the state dies); the fuel argument bounds the
modelled loop, and `none` marks fuel exhaustion with the run still alive. -/
def yearLoop (eng : SimulationEngine) (chainFuel : Nat) :
    Nat → UStream → PickStream → PropertyState → TriggerCounts →
    List (List Int) → List AchievementInfo → List TrajectoryEntry →
    Option (PropertyState × List (List Int) × List AchievementInfo × List TrajectoryEntry)
  | 0, _, _, s, _, achieved, newAch, trajectory =>
    if s.isEnd then some (s, achieved, newAch, trajectory) else none
  | fuel + 1, us, ps, s, counts, achieved, newAch, trajectory =>
    if s.isEnd then some (s, achieved, newAch, trajectory)
    else
      let yr := simulateYear eng chainFuel us ps s counts
      let trajectory := trajectory ++ [yr.1]
      let trajAch := checkAchievements .trajectory yr.2.1 achieved eng.achievements
      let achieved := trajAch.foldl (fun ac a => unlockAchievement a.id ac) achieved
      let newAch := newAch ++ trajAch
      if yr.1.is_end then some (yr.2.1, achieved, newAch, trajectory)
      else yearLoop eng chainFuel fuel yr.2.2.2.1 yr.2.2.2.2 yr.2.1 yr.2.2.1
        achieved newAch trajectory

/-- The seeding step of `simulate`: `PropertyState::new` from the caller's
properties (missing keys default 0, `SPR = 5`, `LIF = 1`) followed by a
verbatim `tlt.push` of each post-replacement talent id — with NO duplicate
check. -/
def seededState (finalTalents : List Int) (properties : List (String × Int)) :
    PropertyState :=
  let s := PropertyState.new
    ((alistLookupStr properties "CHR").getD 0)
    ((alistLookupStr properties "INT").getD 0)
    ((alistLookupStr properties "STR").getD 0)
    ((alistLookupStr properties "MNY").getD 0)
    5 1
  { s with tlt := s.tlt ++ finalTalents }

/-- `SimulationEngine::simulate`.  The source always returns `Ok(..)`: every
condition-evaluation site swallows parse errors with a default, so the
model has no error channel; `none` only marks year-loop fuel exhaustion
(the source would keep looping).  The fuel is also used for the replacement
recursion and the event-chain recursion, both unbounded in the source. -/
def simulate (eng : SimulationEngine) (fuel : Nat) (us : UStream)
    (ps : PickStream) (talentIds : List Int) (properties : List (String × Int))
    (achievedList : List (List Int)) : Option SimulationResult :=
  let ar := applyReplacements eng.talents fuel us talentIds
  let finalTalents := ar.1
  let s := seededState finalTalents properties
  let counts : TriggerCounts := fun _ => 0
  let dt := doTalents eng ps s counts
  let startAch := checkAchievements .start dt.2.1 achievedList eng.achievements
  let achieved := startAch.foldl (fun ac a => unlockAchievement a.id ac) achievedList
  match yearLoop eng fuel fuel ar.2.2 dt.2.2.2 dt.2.1 dt.2.2.1 achieved startAch [] with
  | none => none
  | some r =>
    let summaryAch := checkAchievements .summary r.1 r.2.1 eng.achievements
    let judges := getSummaryJudges eng r.1
    let talentInfos := finalTalents.filterMap (fun id =>
      (alistLookup eng.talents id).map (fun t =>
        ({ id := t.id, name := t.name, description := t.description,
           grade := t.grade } : TalentInfo)))
    some { trajectory := r.2.2.2,
           summary := { total_score := r.1.calculate_summary_score,
                        judges := judges, talents := talentInfos },
           new_achievements := r.2.2.1 ++ summaryAch,
           triggered_events := r.1.evt,
           replacements := ar.2.1 }

/-- C8: `calculate_summary_score` equals
`(max hchr chr + max hint int + max hstr str_ + max hmny mny + max hspr spr) * 2
 + (max hage age) / 2` with `/` truncating toward zero (`Int.div`). -/
theorem c8_summary_score (s : PropertyState) :
    s.calculate_summary_score =
      (max s.hchr s.chr + max s.hint s.int + max s.hstr s.str_ +
        max s.hmny s.mny + max s.hspr s.spr) * 2 +
      Int.tdiv (max s.hage s.age) 2 := rfl

/-- A parse failure makes every `unwrap_or(d)` call site see `d`. -/
theorem checkConditionD_error (d : Bool) (cond : String) (s : PropertyState)
    (e : LifeRestartError) (h : checkCondition cond s = Except.error e) :
    checkConditionD d cond s = d := by
  simp [checkConditionD, h]

/-- Caller properties for the error-swallowing scenario. -/
def propsC1 : List (String × Int) := [("CHR", 5), ("INT", 5), ("STR", 5), ("MNY", 5)]

/-- Engine for the error-swallowing run: talent 1 has the unparseable
condition "ABC", talent 2 kills the subject in the first year, and the only
achievement also carries the unparseable condition. -/
def engC1 : SimulationEngine :=
  { talents := [(1, { id := 1, name := "a", condition := some "ABC" }),
                (2, { id := 2, name := "b", condition := some "AGE>=0",
                      effect := some { lif := -10 } })],
    events := [],
    ages := [],
    achievements := [(5, { id := 5, opportunity := "TRAJECTORY",
                           condition := "ABC" })],
    judge_config := [] }

/-- C1 (counterexample): the condition "ABC" fails to parse, a talent and
an achievement of the configuration carry it, and yet `simulate` completes
with a full `SimulationResult` (one trajectory year, no achievements,
summary score 50) instead of surfacing an `InvalidCondition` error. -/
theorem c1_simulate_completes_despite_parse_error :
    (∃ e, checkCondition "ABC" (seededState [1, 2] propsC1) = Except.error e) ∧
    (simulate engC1 5 (fun _ => 0) (fun _ => 0) [1, 2] propsC1 []).map
      (fun r => (r.trajectory.length, r.new_achievements.length,
                 r.summary.total_score))
      = some (1, 0, 50) := by
  constructor
  · exact ⟨.invalidCondition "No operator found in: ABC", by decide⟩
  · decide

/-- C1 (amended): a condition string that fails to tokenise or parse is
never fatal; every evaluation site swallows the error with its local
default: (1) a talent with that condition never triggers, (2) an event
whose include/exclude is that condition survives pool filtering, (3) a
branch with that condition never matches, and (4) an achievement with that
condition is never awarded. -/
theorem c1_condition_errors_swallowed (cond : String) (s : PropertyState)
    (herr : ∃ e, checkCondition cond s = Except.error e) :
    (∀ (talents : TalentMap) (ids : List Int) (counts : TriggerCounts)
        (id : Int) (cfg : TalentConfig),
        alistLookup talents id = some cfg → cfg.condition = some cond →
        ∀ r ∈ (processTalentsGo s talents ids counts).1, r.talent_id ≠ id) ∧
    (∀ (events : EventMap) (pool : List (Int × ℚ)) (eventId : Int) (w : ℚ)
        (e : EventConfig),
        alistLookup events eventId = some e → e.no_random = false →
        (e.exclude = none ∨ e.exclude = some cond) →
        (e.include_ = none ∨ e.include_ = some cond) →
        (eventId, w) ∈ pool → (eventId, w) ∈ selectFilter events s pool) ∧
    (∀ (bs : List EventBranch), (∀ b ∈ bs, b.condition = cond) →
        firstMatchingBranch s bs = none) ∧
    (∀ (opportunity : Opportunity) (achieved : List (List Int))
        (cfgs : List AchievementConfig),
        (∀ a ∈ cfgs, a.condition = cond) →
        checkAchievementsGo opportunity s achieved cfgs = []) := by
  obtain ⟨e0, he0⟩ := herr
  have hD : ∀ d, checkConditionD d cond s = d := fun d =>
    checkConditionD_error d cond s e0 he0
  refine ⟨?_, ?_, ?_, ?_⟩
  · intro talents ids counts id cfg hlk hcond
    induction ids generalizing counts with
    | nil => intro r hr; simp [processTalentsGo] at hr
    | cons hd tl ih =>
      intro r hr
      unfold processTalentsGo at hr
      cases hl2 : alistLookup talents hd with
      | none => rw [hl2] at hr; exact ih counts r hr
      | some tcfg =>
        rw [hl2] at hr
        dsimp only at hr
        by_cases hmax : counts hd ≥ tcfg.max_triggers
        · rw [if_pos hmax] at hr; exact ih counts r hr
        · rw [if_neg hmax] at hr
          by_cases hskip : (match tcfg.condition with
              | some c => !(checkConditionD false c s)
              | none => false) = true
          · rw [if_pos hskip] at hr; exact ih counts r hr
          · rw [if_neg hskip] at hr
            rcases List.mem_cons.mp hr with hh | ht
            · subst hh
              intro hid
              dsimp only at hid
              subst hid
              rw [hlk] at hl2
              have : tcfg = cfg := (Option.some.inj hl2).symm
              subst this
              simp [hcond, hD false] at hskip
            · exact ih (bumpCount counts hd) r ht
  · intro events pool eventId w e hlk hnr hex hinc hmem
    induction pool with
    | nil => simp at hmem
    | cons hd tl ih =>
      obtain ⟨eid, ww⟩ := hd
      rcases List.mem_cons.mp hmem with hh | ht
      · obtain ⟨h1, h2⟩ := Prod.mk.injEq .. ▸ hh
        subst h1; subst h2
        unfold selectFilter
        rw [hlk]
        dsimp only
        rw [hnr]
        have hex2 : (match e.exclude with
            | some ex => checkConditionD false ex s
            | none => false) = false := by
          rcases hex with h | h <;> rw [h] <;> simp [hD false]
        have hinc2 : (match e.include_ with
            | some inc => !(checkConditionD true inc s)
            | none => false) = false := by
          rcases hinc with h | h <;> rw [h] <;> simp [hD true]
        rw [hex2, hinc2]
        simp
      · unfold selectFilter
        cases hl2 : alistLookup events eid with
        | none => exact ih ht
        | some e2 =>
          dsimp only
          by_cases h1 : e2.no_random
          · rw [if_pos h1]; exact ih ht
          · rw [if_neg h1]
            by_cases h2 : (match e2.exclude with
                | some ex => checkConditionD false ex s
                | none => false) = true
            · rw [if_pos h2]; exact ih ht
            · rw [if_neg h2]
              by_cases h3 : (match e2.include_ with
                  | some inc => !(checkConditionD true inc s)
                  | none => false) = true
              · rw [if_pos h3]; exact ih ht
              · rw [if_neg h3]
                exact List.mem_cons_of_mem _ (ih ht)
  · intro bs hall
    induction bs with
    | nil => rfl
    | cons b tl ih =>
      unfold firstMatchingBranch
      rw [hall b (List.mem_cons_self b tl), hD false]
      simp only [if_neg Bool.false_ne_true]
      exact ih (fun b hb => hall b (List.mem_cons_of_mem _ hb))
  · intro opportunity achieved cfgs hall
    induction cfgs with
    | nil => rfl
    | cons a tl ih =>
      unfold checkAchievementsGo
      have hc : checkConditionD false a.condition s = false := by
        rw [hall a (List.mem_cons_self a tl)]; exact hD false
      have ih2 := ih (fun a ha => hall a (List.mem_cons_of_mem _ ha))
      split
      · exact ih2
      · split
        · exact ih2
        · rw [hc]
          simp only [if_neg Bool.false_ne_true]
          exact ih2

/-- C1 (witness): the amended theorem applied at the unparseable condition
"ABC" and a fresh state, instantiated with concrete catalogues for all four
call sites. -/
theorem c1_condition_errors_swallowed_witness :
    (∀ r ∈ (processTalentsGo (PropertyState.new 3 0 0 0 5 1)
        [(1, { id := 1, condition := some "ABC" })] [1] (fun _ => 0)).1,
      r.talent_id ≠ 1) ∧
    ((7, (1 : ℚ)) ∈ selectFilter
        [(7, { id := 7, event := "x", include_ := some "ABC" })]
        (PropertyState.new 3 0 0 0 5 1) [(7, 1)]) ∧
    (firstMatchingBranch (PropertyState.new 3 0 0 0 5 1)
        [{ condition := "ABC", event_id := 9 }] = none) ∧
    (checkAchievementsGo .start (PropertyState.new 3 0 0 0 5 1) []
        [{ id := 5, opportunity := "START", condition := "ABC" }] = []) := by
  have h := c1_condition_errors_swallowed "ABC" (PropertyState.new 3 0 0 0 5 1)
    ⟨.invalidCondition "No operator found in: ABC", by decide⟩
  refine ⟨h.1 [(1, { id := 1, condition := some "ABC" })] [1] (fun _ => 0) 1
      { id := 1, condition := some "ABC" } (by decide) rfl,
    h.2.1 [(7, { id := 7, event := "x", include_ := some "ABC" })] [(7, 1)] 7 1
      { id := 7, event := "x", include_ := some "ABC" } (by decide) rfl
      (Or.inl rfl) (Or.inr rfl) (List.mem_singleton.mpr rfl),
    h.2.2.1 [{ condition := "ABC", event_id := 9 }] (by decide),
    h.2.2.2 .start [] [{ id := 5, opportunity := "START", condition := "ABC" }]
      (by decide)⟩

/-- C2 engine: event 1's single branch has the empty condition (always
true) and points back to event 1. -/
def engC2 : SimulationEngine :=
  { talents := [],
    events := [(1, { id := 1, event := "c",
                     branch := some [{ condition := "", event_id := 1 }] })],
    ages := [], achievements := [], judge_config := [] }

/-- C2: `process_event_chain` has no depth cap whatsoever.  On a cyclic
configuration (event 1's always-true branch points back to event 1) the
chain emits exactly one content record per available resolution step, for
EVERY step count `n` — in particular far past 64 — so the source recursion,
which this model truncates only by the artificial fuel `n`, never
terminates on this input. -/
theorem c2_event_chain_has_no_depth_cap (n : Nat) (ps : PickStream)
    (s : PropertyState) (content : List YearContent) :
    ((processEventChain engC2 n ps s 1 content).2.1).length =
      content.length + n := by
  have hpe : ∀ t : PropertyState, processEvent 1 engC2.events t =
      some { event_id := 1, description := "c", grade := 0, effect := none,
             next_event_id := some 1, post_event := none } := fun t => rfl
  induction n generalizing ps s content with
  | zero => simp [processEventChain]
  | succ n ih =>
    rw [processEventChain, hpe]
    dsimp only
    rw [ih]
    simp
    omega

/-- C10: `simulate` seeds `tlt` by verbatim pushes of the post-replacement
talent list: with talent 7 declared (no replacement) and input `[7, 7]`,
`apply_replacements` returns `[7, 7]` unchanged, the seeded state's `tlt`
holds the duplicate pair — violating `Nodup` — whereas routing the same two
inserts through `change("TLT", 7)` would have deduplicated to `[7]`. -/
theorem c10_simulate_seeds_duplicate_talents :
    (applyReplacements [(7, { id := 7, name := "dup" })] 8 (fun _ => 0)
        [7, 7]).1 = [7, 7] ∧
    (seededState [7, 7] [("CHR", 3)]).tlt = [7, 7] ∧
    ¬ (seededState [7, 7] [("CHR", 3)]).tlt.Nodup ∧
    (((PropertyState.new 3 0 0 0 5 1).change 0 "TLT" 7).change 0 "TLT" 7).tlt
      = [7] := by
  refine ⟨by decide, by decide, by decide, by decide⟩

end LifeRestart
